import Mathlib

/-!
Verification development for the Windborne weather-station backend
(normalization, slicing, caching pipeline).

The Python sources are shallowly embedded:
pure functions become Lean functions, uncaught Python exceptions become
`Except.error`, Python numbers are modelled over `Int`/`ℚ` with explicit
NaN and infinity constructors, and the external collaborators (the
`datetime`/`json` standard library, pandas, httpx and redis) are modelled
at their documented interfaces.
-/

set_option maxRecDepth 10000

/-- Python float: a finite rational (idealising IEEE doubles by exact
rationals), NaN, or a signed infinity. -/
inductive PyFloat where
  | fin (q : ℚ)
  | nan
  | inf
  | ninf
deriving DecidableEq, Repr

/-- A Python / JSON value as produced by `json.loads` (which accepts the
`NaN`, `Infinity` and `-Infinity` literals by default).  Python `bool` is
kept separate from `int` but, as in Python, it is a numeric type. -/
inductive PyVal where
  | pynull
  | pybool (b : Bool)
  | pyint (n : Int)
  | pyfloat (f : PyFloat)
  | pystr (s : String)
  | pylist (xs : List PyVal)
  | pydict (kvs : List (String × PyVal))
deriving Repr

/-- Propositional equality on `Except` results is decidable when both
component types decide; used to evaluate run results of the embeddings. -/
instance {e a : Type} [DecidableEq e] [DecidableEq a] : DecidableEq (Except e a)
  | .error e1, .error e2 =>
    match decEq e1 e2 with
    | isTrue h => isTrue (h ▸ rfl)
    | isFalse h => isFalse fun hc => h (Except.error.inj hc)
  | .error _, .ok _ => isFalse fun hc => Except.noConfusion hc
  | .ok _, .error _ => isFalse fun hc => Except.noConfusion hc
  | .ok a1, .ok a2 =>
    match decEq a1 a2 with
    | isTrue h => isTrue (h ▸ rfl)
    | isFalse h => isFalse fun hc => h (Except.ok.inj hc)

/-- Python `int(x)` on a rational: truncation toward zero. -/
def ratTrunc (q : ℚ) : Int :=
  if 0 ≤ q then ⌊q⌋ else ⌈q⌉

/-- First-match lookup in a Python dict modelled as an association list
(Python dicts have unique keys, so first match is the match). -/
def dictGetV : List (String × PyVal) → String → Option PyVal
  | [], _ => none
  | (k, v) :: rest, key => if k = key then some v else dictGetV rest key

/-! ### Civil calendar arithmetic

`datetime.fromtimestamp` / `datetime.isoformat` / `datetime.fromisoformat`
need conversions between epoch days and civil dates.  These are the
standard civil-from-days / days-from-civil algorithms on the proleptic
Gregorian calendar that CPython's `datetime` implements. -/

/-- Days since 1970-01-01 to a civil (year, month, day). -/
def civilFromDays (z0 : Int) : Int × Int × Int :=
  let z := z0 + 719468
  let era := z.fdiv 146097
  let doe := z - era * 146097
  let yoe := (doe - doe.fdiv 1460 + doe.fdiv 36524 - doe.fdiv 146096).fdiv 365
  let y := yoe + era * 400
  let doy := doe - (365 * yoe + yoe.fdiv 4 - yoe.fdiv 100)
  let mp := (5 * doy + 2).fdiv 153
  let d := doy - (153 * mp + 2).fdiv 5 + 1
  let m := mp + (if mp < 10 then 3 else -9)
  (y + (if m ≤ 2 then 1 else 0), m, d)

/-- Civil (year, month, day) to days since 1970-01-01. -/
def daysFromCivil (y0 m d : Int) : Int :=
  let y := y0 - (if m ≤ 2 then 1 else 0)
  let era := y.fdiv 400
  let yoe := y - era * 400
  let doy := (153 * (m + (if m > 2 then -3 else 9)) + 2).fdiv 5 + d - 1
  let doe := yoe * 365 + yoe.fdiv 4 - yoe.fdiv 100 + doy
  era * 146097 + doe - 719468

/-- Is `y` a Gregorian leap year (as `calendar.isleap`). -/
def isLeap (y : Int) : Bool :=
  (y % 4 = 0 ∧ y % 100 ≠ 0) ∨ y % 400 = 0

/-- Number of days in month `m` of year `y`. -/
def daysInMonth (y m : Int) : Int :=
  if m = 2 then (if isLeap y then 29 else 28)
  else if m = 4 ∨ m = 6 ∨ m = 9 ∨ m = 11 then 30
  else 31

def usPerSec : Int := 1000000
def usPerMin : Int := 60000000
def usPerHour : Int := 3600000000
def usPerDay : Int := 86400000000

/-- Zero-pad a natural number to `w` digits (as `datetime` string formatting). -/
def padNum (w : Nat) (n : Nat) : String :=
  let s := toString n
  if s.length < w then String.mk (List.replicate (w - s.length) '0') ++ s else s

/-- Render an epoch-microseconds instant in UTC exactly as
`datetime.isoformat()` does for a `timezone.utc`-aware datetime:
`YYYY-MM-DDTHH:MM:SS[.ffffff]+00:00`, the fractional part printed
(six digits) only when the microsecond field is nonzero. -/
def isoOfUs (us : Int) : String :=
  let days := us.fdiv usPerDay
  let rem := (us.emod usPerDay).toNat
  let ymd := civilFromDays days
  let hh := rem / 3600000000
  let mi := rem / 60000000 % 60
  let ss := rem / 1000000 % 60
  let micro := rem % 1000000
  padNum 4 ymd.1.toNat ++ "-" ++ padNum 2 ymd.2.1.toNat ++ "-" ++ padNum 2 ymd.2.2.toNat ++
    "T" ++ padNum 2 hh ++ ":" ++ padNum 2 mi ++ ":" ++ padNum 2 ss ++
    (if micro = 0 then "" else "." ++ padNum 6 micro) ++ "+00:00"

/-- Least representable `datetime` instant (0001-01-01T00:00:00 UTC), in
epoch microseconds; `datetime.fromtimestamp` raises outside [MINYEAR, MAXYEAR]. -/
def datetimeMinUs : Int := daysFromCivil 1 1 1 * usPerDay

/-- Greatest representable `datetime` instant (9999-12-31T23:59:59.999999 UTC). -/
def datetimeMaxUs : Int := daysFromCivil 9999 12 31 * usPerDay + (usPerDay - 1)

def usInRange (us : Int) : Bool := datetimeMinUs ≤ us ∧ us ≤ datetimeMaxUs

/-- `datetime.fromtimestamp(ms/1000, tz=timezone.utc).isoformat()`, with the
float division `ms/1000` idealised as exact: succeeds iff the instant lies in
the supported year range, else the surrounding `try` yields `None`. -/
def fromtimestampIso (ms : Int) : Option String :=
  if usInRange (ms * 1000) then some (isoOfUs (ms * 1000)) else none

/-! ### `datetime.fromisoformat` model

CPython's documented grammar (the format emitted by `isoformat`, accepted by
every 3.x version):
`YYYY-MM-DD[*HH[:MM[:SS[.fff[fff]]]][+HH:MM[:SS]]]` where `*` matches any
single character.  The result is validated like the `datetime` constructor
(month/day/hour/minute/second ranges, offset strictly below 24 hours).
Fractional offsets are not modelled. -/

structure PyDatetime where
  year : Int
  month : Int
  day : Int
  hour : Int
  minute : Int
  second : Int
  micro : Int
  /-- UTC offset in seconds; `none` models a naive datetime. -/
  offSec : Option Int
deriving DecidableEq, Repr

def isDigitCh (c : Char) : Bool := '0' ≤ c ∧ c ≤ '9'

def digitVal (c : Char) : Nat := c.toNat - '0'.toNat

/-- Read exactly `w` digits from the front, returning the value and the rest. -/
def takeDigits : Nat → List Char → Option (Nat × List Char)
  | 0, cs => some (0, cs)
  | _ + 1, [] => none
  | w + 1, c :: cs =>
    if isDigitCh c then
      match takeDigits w cs with
      | some (v, rest) => some (digitVal c * 10 ^ w + v, rest)
      | none => none
    else none

/-- Parse the `[+HH:MM[:SS]]` offset tail (already past the sign): returns
offset seconds (unsigned) only if the whole remainder is consumed. -/
def parseOffTail (cs : List Char) : Option Int :=
  match takeDigits 2 cs with
  | some (hh, ':' :: cs1) =>
    match takeDigits 2 cs1 with
    | some (mm, []) => some (hh * 3600 + mm * 60)
    | some (mm, ':' :: cs2) =>
      match takeDigits 2 cs2 with
      | some (ss, []) => some (hh * 3600 + mm * 60 + ss)
      | _ => none
    | _ => none
  | _ => none

/-- Parse `[.fff[fff]]` (exactly 3 or 6 digits) and then an optional offset;
returns (microseconds, offset seconds). -/
def parseFracThenOff (cs : List Char) : Option (Nat × Option Int) :=
  match cs with
  | [] => some (0, none)
  | '+' :: rest => (parseOffTail rest).map fun o => (0, some o)
  | '-' :: rest => (parseOffTail rest).map fun o => (0, some (-o))
  | '.' :: rest =>
    match takeDigits 3 rest with
    | none => none
    | some (v3, rest3) =>
      match takeDigits 3 rest3 with
      | some (v6, rest6) =>
        match rest6 with
        | [] => some (v3 * 1000 + v6, none)
        | '+' :: r => (parseOffTail r).map fun o => (v3 * 1000 + v6, some o)
        | '-' :: r => (parseOffTail r).map fun o => (v3 * 1000 + v6, some (-o))
        | _ => none
      | none =>
        match rest3 with
        | [] => some (v3 * 1000, none)
        | '+' :: r => (parseOffTail r).map fun o => (v3 * 1000, some o)
        | '-' :: r => (parseOffTail r).map fun o => (v3 * 1000, some (-o))
        | _ => none
  | _ => none

/-- Parse the time-of-day part `HH[:MM[:SS[.fff[fff]]]][offset]`. -/
def parseTimePart (cs : List Char) : Option (Nat × Nat × Nat × Nat × Option Int) :=
  match takeDigits 2 cs with
  | none => none
  | some (hh, rest) =>
    match rest with
    | [] => some (hh, 0, 0, 0, none)
    | '+' :: r => (parseOffTail r).map fun o => (hh, 0, 0, 0, some o)
    | '-' :: r => (parseOffTail r).map fun o => (hh, 0, 0, 0, some (-o))
    | ':' :: r1 =>
      match takeDigits 2 r1 with
      | none => none
      | some (mm, rest2) =>
        match rest2 with
        | [] => some (hh, mm, 0, 0, none)
        | '+' :: r => (parseOffTail r).map fun o => (hh, mm, 0, 0, some o)
        | '-' :: r => (parseOffTail r).map fun o => (hh, mm, 0, 0, some (-o))
        | ':' :: r2 =>
          match takeDigits 2 r2 with
          | none => none
          | some (ss, rest3) =>
            (parseFracThenOff rest3).map fun fo => (hh, mm, ss, fo.1, fo.2)
        | _ => none
    | _ => none

/-- A `timezone(timedelta(...))` offset must be strictly within a day. -/
def offValid : Option Int → Bool
  | none => true
  | some o => -86400 < o ∧ o < 86400

/-- Validity checks performed by the `datetime` constructor. -/
def dtValid (dt : PyDatetime) : Bool :=
  1 ≤ dt.year ∧ dt.year ≤ 9999 ∧ 1 ≤ dt.month ∧ dt.month ≤ 12 ∧
    1 ≤ dt.day ∧ dt.day ≤ daysInMonth dt.year dt.month ∧
    0 ≤ dt.hour ∧ dt.hour < 24 ∧ 0 ≤ dt.minute ∧ dt.minute < 60 ∧
    0 ≤ dt.second ∧ dt.second < 60 ∧ 0 ≤ dt.micro ∧ dt.micro < 1000000 ∧
    offValid dt.offSec = true

/-- Model of `datetime.fromisoformat`. -/
def pyFromIso (s : String) : Option PyDatetime :=
  match takeDigits 4 s.toList with
  | some (yy, '-' :: r1) =>
    match takeDigits 2 r1 with
    | some (mo, '-' :: r2) =>
      match takeDigits 2 r2 with
      | none => none
      | some (dd, rest) =>
        let mk : Nat × Nat × Nat × Nat × Option Int → Option PyDatetime := fun t =>
          let dt : PyDatetime :=
            ⟨yy, mo, dd, t.1, t.2.1, t.2.2.1, t.2.2.2.1, t.2.2.2.2⟩
          if dtValid dt then some dt else none
        match rest with
        | [] => mk (0, 0, 0, 0, none)
        | _ :: timecs =>
          -- the date-time separator matches any single character
          match parseTimePart timecs with
          | none => none
          | some t => mk t
    | _ => none
  | _ => none

/-- Epoch microseconds of the civil instant, ignoring the offset. -/
def dtUsNaive (dt : PyDatetime) : Int :=
  daysFromCivil dt.year dt.month dt.day * usPerDay +
    dt.hour * usPerHour + dt.minute * usPerMin + dt.second * usPerSec + dt.micro

/-- Epoch microseconds in UTC: a naive datetime is assumed UTC (as the code
does via `dt.replace(tzinfo=timezone.utc)`). -/
def dtUsUtc (dt : PyDatetime) : Int :=
  dtUsNaive dt - (dt.offSec.getD 0) * usPerSec

/-! ### Python `float(str)` model

`float` strips surrounding whitespace, accepts an optional sign, the words
`inf`, `infinity`, `nan` (case-insensitively), or a decimal literal with
optional fraction and exponent; underscores may appear between digits. -/

def isPySpace (c : Char) : Bool :=
  c = ' ' ∨ c = '\t' ∨ c = '\n' ∨ c = '\r' ∨ c = '\x0b' ∨ c = '\x0c'

/-- Read a digit run allowing single underscores between digits: returns
(value, number of digits, rest).  Fails on misplaced underscores. -/
def takeDigitRun (acc : Nat) (cnt : Nat) : List Char → Option (Nat × Nat × List Char)
  | [] => if cnt = 0 then none else some (acc, cnt, [])
  | c :: cs =>
    if isDigitCh c then takeDigitRun (acc * 10 + digitVal c) (cnt + 1) cs
    else if c = '_' then
      -- an underscore must be surrounded by digits
      if cnt = 0 then none
      else match cs with
        | c2 :: _ => if isDigitCh c2 then takeDigitRun acc cnt cs else none
        | [] => none
    else if cnt = 0 then none else some (acc, cnt, c :: cs)

def lowerStr (cs : List Char) : List Char := cs.map Char.toLower

/-- The decimal-literal part of `float(str)` (sign already consumed):
`digits [. digits] [e [sign] digits]`, at least one digit overall. -/
def parseFloatBody (cs : List Char) : Option ℚ :=
  -- integer part (may be empty if a fraction follows)
  let intPart := takeDigitRun 0 0 cs
  let afterInt : Nat × List Char :=
    match intPart with
    | some (v, _, rest) => (v, rest)
    | none => (0, cs)
  let hadInt : Bool := intPart.isSome
  let step2 : Option (ℚ × List Char) :=
    match afterInt.2 with
    | '.' :: fr =>
      match takeDigitRun 0 0 fr with
      | some (fv, fc, rest2) =>
        some ((afterInt.1 : ℚ) + (fv : ℚ) / ((10 : ℚ) ^ fc), rest2)
      | none => if hadInt then some ((afterInt.1 : ℚ), fr) else none
    | rest => if hadInt then some ((afterInt.1 : ℚ), rest) else none
  match step2 with
  | none => none
  | some (mant, rest) =>
    match rest with
    | [] => some mant
    | e :: ecs =>
      if e = 'e' ∨ e = 'E' then
        let signed : Bool × List Char :=
          match ecs with
          | '+' :: t => (false, t)
          | '-' :: t => (true, t)
          | t => (false, t)
        match takeDigitRun 0 0 signed.2 with
        | some (ev, _, []) =>
          some (if signed.1 then mant / ((10 : ℚ) ^ ev) else mant * ((10 : ℚ) ^ ev))
        | _ => none
      else none

/-- Model of Python `float(s)`: `none` models a raised `ValueError`. -/
def pyFloatOfString (s : String) : Option PyFloat :=
  let cs := (s.toList.dropWhile isPySpace).reverse.dropWhile isPySpace |>.reverse
  let signed : Bool × List Char :=
    match cs with
    | '+' :: t => (false, t)
    | '-' :: t => (true, t)
    | t => (false, t)
  let body := lowerStr signed.2
  if body = "inf".toList ∨ body = "infinity".toList then
    some (if signed.1 then PyFloat.ninf else PyFloat.inf)
  else if body = "nan".toList then
    some PyFloat.nan
  else
    match parseFloatBody signed.2 with
    | some q => some (.fin (if signed.1 then -q else q))
    | none => none

/-! ## `app/services/normalize.py` -/

/-- A value stored in a row dict produced by `normalize_rowwise`: the
canonical timestamp is a string, admitted fields are floats. -/
inductive RVal where
  | rstr (s : String)
  | rnum (q : ℚ)
deriving DecidableEq, Repr

/-- A row produced by the normalizer: a Python dict, insertion-ordered. -/
abbrev Row : Type := List (String × RVal)

/-- Python dict read `row[k]` / `row.get(k)` (first match; keys are unique). -/
def dictGet : Row → String → Option RVal
  | [], _ => none
  | (k, v) :: rest, key => if k = key then some v else dictGet rest key

/-- Python dict write `row[k] = v`: update in place keeping the key's
position, or append a fresh key at the end. -/
def dictSet : Row → String → RVal → Row
  | [], key, v => [(key, v)]
  | (k, w) :: rest, key, v =>
    if k = key then (k, v) :: rest else (k, w) :: dictSet rest key v

/-- `_is_num(v)`: `isinstance(v, (int, float)) and v == v and v not in
(inf, -inf)`.  Python `bool` is a subclass of `int`, so booleans pass. -/
def _is_num : PyVal → Bool
  | .pyint _ => true
  | .pybool _ => true
  | .pyfloat (.fin _) => true
  | .pyfloat .nan => false   -- v == v fails
  | .pyfloat .inf => false
  | .pyfloat .ninf => false
  | _ => false

/-- Python `float(v)` on a value for which `_is_num` holds. -/
def pyToFloat : PyVal → ℚ
  | .pyint n => (n : ℚ)
  | .pybool b => if b then 1 else 0
  | .pyfloat (.fin q) => q
  | _ => 0

/-- The finiteness test `_is_num(fv)` applied to a parsed Python float. -/
def floatIsFinite : PyFloat → Bool
  | .fin _ => true
  | _ => false

/-- The field-admission step of the normalizer's inner loops: a numeric
value is coerced with `float(v)`; a string is admitted when `float(v)`
parses to a finite value; everything else is dropped (`none`). -/
def coerceField (v : PyVal) : Option ℚ :=
  if _is_num v then some (pyToFloat v)
  else
    match v with
    | .pystr s =>
      match pyFloatOfString s with
      | some f => if floatIsFinite f then some (pyToFloat (.pyfloat f)) else none
      | none => none
    | _ => none

/-- Python `t.replace('Z', '+00:00')`: `str.replace` replaces every
occurrence of the single-character pattern. -/
def replaceZ (s : String) : String :=
  String.mk (s.toList.flatMap fun c => if c = 'Z' then "+00:00".toList else [c])

/-- The string branch of `_to_iso`: every `'Z'` is replaced by `'+00:00'`,
the result is parsed with `fromisoformat`, a naive value is assumed UTC,
and the instant is rendered in UTC; a conversion leaving the supported
year range is caught and yields `None`. -/
def toIsoStr (s : String) : Option String :=
  match pyFromIso (replaceZ s) with
  | none => none
  | some dt =>
    let us := dtUsUtc dt
    if usInRange us then some (isoOfUs us) else none

/-- `_to_iso(t)`.  `Except.error` models an uncaught Python exception:
`int(t * 1000)` on NaN raises `ValueError` and `int(t)` on an infinity
raises `OverflowError`, both outside the `try` block. -/
def _to_iso : PyVal → Except String (Option String)
  | .pyint n => .ok (fromtimestampIso (if n > 1000000000000 then n else n * 1000))
  | .pybool b => .ok (fromtimestampIso (if b then 1000 else 0))
  | .pyfloat (.fin q) =>
    .ok (fromtimestampIso (if q > 1000000000000 then ratTrunc q else ratTrunc (1000 * q)))
  | .pyfloat .nan => .error "ValueError"
  | .pyfloat .inf => .error "OverflowError"
  | .pyfloat .ninf => .error "OverflowError"
  | .pystr s => .ok (toIsoStr s)
  | _ => .ok none

/-- The time-key candidates, in priority order. -/
def timeKeyCandidates : List String := ["timestamp", "time", "ts", "date", "datetime"]

/-- Case A time-key choice: the first candidate present in the first
element (when it is a dict), defaulting to `"timestamp"`. -/
def pickTk (data : List PyVal) : String :=
  match data with
  | [] => "timestamp"
  | first :: _ =>
    match first with
    | .pydict items =>
      (timeKeyCandidates.find? fun cand => (dictGetV items cand).isSome).getD "timestamp"
    | _ => "timestamp"

/-- The inner loop over `p.items()` of Case A: every key other than the
time key is admitted via `coerceField` and written into the row. -/
def rowFields (tk : String) (items : List (String × PyVal)) (row : Row) : Row :=
  match items with
  | [] => row
  | (k, v) :: rest =>
    if k = tk then rowFields tk rest row
    else
      match coerceField v with
      | some q => rowFields tk rest (dictSet row k (.rnum q))
      | none => rowFields tk rest row

/-- Case A row loop: non-dict elements are skipped, elements whose time
value does not convert are skipped (`if not iso` also skips an empty
string), and `_to_iso` may raise. -/
def rowsA (tk : String) : List PyVal → Except String (List Row)
  | [] => .ok []
  | p :: rest =>
    match p with
    | .pydict items =>
      match _to_iso ((dictGetV items tk).getD .pynull) with
      | .error e => .error e
      | .ok none => rowsA tk rest
      | .ok (some iso) =>
        if iso = "" then rowsA tk rest
        else
          match rowsA tk rest with
          | .error e => .error e
          | .ok rs => .ok (rowFields tk items [("timestamp", .rstr iso)] :: rs)
    | _ => rowsA tk rest

/-- The inner loop of Cases B and C: for each column other than the time
column, contribute index `i` when the column is a list long enough. -/
def colFields (tkey : String) (cols : List (String × PyVal)) (i : Nat) (row : Row) : Row :=
  match cols with
  | [] => row
  | (k, col) :: rest =>
    if k = tkey then colFields tkey rest i row
    else
      match col with
      | .pylist xs =>
        match xs.get? i with
        | some v =>
          match coerceField v with
          | some q => colFields tkey rest i (dictSet row k (.rnum q))
          | none => colFields tkey rest i row
        | none => colFields tkey rest i row
      | _ => colFields tkey rest i row

/-- The index loop shared by Cases B and C (their Python bodies are
identical up to the dict holding the columns): walk the time array with
its index, convert each time value, and build a row from the columns. -/
def rowsCols (tkey : String) (cols : List (String × PyVal)) (i : Nat) :
    List PyVal → Except String (List Row)
  | [] => .ok []
  | t :: trest =>
    match _to_iso t with
    | .error e => .error e
    | .ok none => rowsCols tkey cols (i + 1) trest
    | .ok (some iso) =>
      if iso = "" then rowsCols tkey cols (i + 1) trest
      else
        match rowsCols tkey cols (i + 1) trest with
        | .error e => .error e
        | .ok rs => .ok (colFields tkey cols i [("timestamp", .rstr iso)] :: rs)

/-- The sort key `r["timestamp"]` (always present on constructed rows). -/
def rowTsKey (r : Row) : RVal := (dictGet r "timestamp").getD (.rstr "")

def rvalIsStr : RVal → Bool
  | .rstr _ => true
  | .rnum _ => false

/-- Comparison used by `rows.sort` when all keys are strings. -/
def rowLeStr (a b : Row) : Bool :=
  match rowTsKey a, rowTsKey b with
  | .rstr x, .rstr y => x ≤ y
  | _, _ => true

/-- Comparison used by `rows.sort` when all keys are floats. -/
def rowLeNum (a b : Row) : Bool :=
  match rowTsKey a, rowTsKey b with
  | .rnum x, .rnum y => x ≤ y
  | _, _ => true

/-- `rows.sort(key=lambda r: r["timestamp"])`: Python's stable sort;
comparing a `str` key with a `float` key raises `TypeError`, and with
both kinds present some cross comparison always happens. -/
def sortRows (rows : List Row) : Except String (List Row) :=
  if rows.all fun r => rvalIsStr (rowTsKey r) then .ok (rows.mergeSort rowLeStr)
  else if rows.all fun r => ¬rvalIsStr (rowTsKey r) then .ok (rows.mergeSort rowLeNum)
  else .error "TypeError"

/-- `normalize_rowwise(input_obj)`.  The three accepted shapes, tried in
order; anything else yields the empty list.  `Except.error` models an
uncaught exception escaping the function. -/
def normalize_rowwise (input_obj : PyVal) : Except String (List Row) :=
  match input_obj with
  | .pydict obj =>
    match dictGetV obj "points" with
    | some (.pylist data) =>
      -- Case A: points is a row-wise list
      match rowsA (pickTk data) data with
      | .error e => .error e
      | .ok rows => sortRows rows
    | some (.pydict data) =>
      -- Case B: points is columnar
      match timeKeyCandidates.find? fun cand => (dictGetV data cand).isSome with
      | none => .ok []
      | some tkey =>
        match dictGetV data tkey with
        | some (.pylist tarr) =>
          match rowsCols tkey data 0 tarr with
          | .error e => .error e
          | .ok rows => sortRows rows
        | _ => .ok []
    | _ =>
      -- Case C: columns at top level
      if !obj.isEmpty && obj.all fun kv => match kv.2 with | .pylist _ => true | _ => false then
        match timeKeyCandidates.find? fun cand => (dictGetV obj cand).isSome with
        | none => .ok []
        | some tkey =>
          match dictGetV obj tkey with
          | some (.pylist tarr) =>
            match rowsCols tkey obj 0 tarr with
            | .error e => .error e
            | .ok rows => sortRows rows
          | _ => .ok []
      else .ok []
  | _ => .ok []

/-! ## `app/services/series.py`

`build_slice` delegates to pandas; the pandas operations are modelled at
their documented behavior: `pd.to_datetime(..., utc=True, errors="coerce")`
parses ISO strings (naive values treated as UTC) and coerces failures and
out-of-bounds instants to `NaT`; a plain `pd.to_datetime(bound)` keeps a
naive result naive, and comparing a tz-aware series against a naive
`Timestamp` raises `TypeError`. -/

/-- `pandas.Timestamp` bounds (datetime64[ns]) truncated to microseconds. -/
def pandasMinUs : Int := -9223372036854775

def pandasMaxUs : Int := 9223372036854775

def pandasInRange (us : Int) : Bool := pandasMinUs ≤ us ∧ us ≤ pandasMaxUs

/-- Parse a datetime string as pandas does (modelled for the ISO-8601
subset): returns UTC epoch microseconds and whether an offset was
carried.  Out-of-bounds instants fail. -/
def pandasParseStr (s : String) : Option (Int × Bool) :=
  match pyFromIso s with
  | none => none
  | some dt =>
    let u := dtUsUtc dt
    if pandasInRange u then some (u, dt.offSec.isSome) else none

/-- One cell of the `timestamp` column under
`pd.to_datetime(..., utc=True, errors="coerce")`: a string parses as ISO
(naive treated as UTC), a float is interpreted as nanoseconds since epoch
(the pandas default unit), anything failing becomes `NaT` (`none`). -/
def cellToUs : Option RVal → Option Int
  | some (.rstr s) => (pandasParseStr s).map Prod.fst
  | some (.rnum q) =>
    let u := ratTrunc (q / 1000)
    if pandasInRange u then some u else none
  | none => none

/-- Column order of `pd.DataFrame(rows)`: union of row keys in first-seen
order. -/
def frameCols (rows : List Row) : List String :=
  rows.foldl (fun acc r => r.foldl (fun acc2 kv => if kv.1 ∈ acc2 then acc2 else acc2 ++ [kv.1]) acc) []

/-- A row of the response payload: the (parsed) timestamp plus one cell per
kept column; `none` is a pandas `NaN`/missing cell. -/
structure ORow where
  ts : Int
  cells : List (String × Option RVal)
deriving DecidableEq, Repr

structure SliceResult where
  points : List ORow
  points_count : Nat
deriving DecidableEq, Repr

def emptySlice : SliceResult := ⟨[], 0⟩

/-- Time filter `df[df["timestamp"] >= bound]` / `<= bound`: skipped for a
falsy bound; a bound that fails to parse raises; a naive bound compared
against the tz-aware column raises `TypeError`. -/
def applyBound (bound : Option String) (keep : Int → Int → Bool) (xs : List (Int × Row)) :
    Except String (List (Int × Row)) :=
  match bound with
  | none => .ok xs
  | some s =>
    if s = "" then .ok xs
    else
      match pandasParseStr s with
      | none => .error "DateParseError"
      | some (u, aware) =>
        if aware then .ok (xs.filter fun p => keep p.1 u) else .error "TypeError"

/-- Is column `c` of `pd.DataFrame(rows)` of numeric dtype?  It is unless
some row holds a string there (dtype is fixed at construction; later
filtering does not re-infer it). -/
def colNumeric (rows : List Row) (c : String) : Bool :=
  rows.all fun r =>
    match dictGet r c with
    | some (.rstr _) => false
    | _ => true

/-- Parse a pandas offset alias such as `1h`, `15min`, `1d` into a bucket
width in microseconds (modelled for the h/min/d/s aliases); a zero or
unknown frequency raises. -/
def parseFreq (s : String) : Option Int :=
  let cs := s.toList
  let digits := cs.takeWhile isDigitCh
  let unit := cs.dropWhile isDigitCh
  let n : Nat := if digits.isEmpty then 1 else digits.foldl (fun a c => a * 10 + digitVal c) 0
  let w : Option Int :=
    if unit = ['h'] ∨ unit = ['H'] then some usPerHour
    else if unit = "min".toList ∨ unit = ['T'] ∨ unit = ['t'] then some usPerMin
    else if unit = ['d'] ∨ unit = ['D'] then some usPerDay
    else if unit = ['s'] ∨ unit = ['S'] then some usPerSec
    else none
  match w with
  | some wu => if n = 0 then none else some (n * wu)
  | none => none

/-- Left edge of the resample bucket containing `t`, for bins anchored at
`anchor` (pandas `origin="start_day"`: midnight of the first index day). -/
def bucketOf (anchor width t : Int) : Int :=
  anchor + width * ((t - anchor).fdiv width)

/-- Midnight (UTC) of the day containing `t`, in epoch microseconds. -/
def dayAnchor (t : Int) : Int := usPerDay * t.fdiv usPerDay

/-- Mean of the values falling in one bucket (`NaN`, i.e. `none`, when the
bucket is empty for the field — pandas `mean` skips missing cells). -/
def colMean (vals : List ℚ) : Option ℚ :=
  if vals.isEmpty then none else some (vals.sum / (vals.length : ℚ))

/-- Nearest populated position strictly before `k` in a column. -/
def findPrevVal (xs : List (Option ℚ)) (k : Nat) : Option (Nat × ℚ) :=
  ((List.range k).reverse.filterMap fun i =>
    match xs.get? i with
    | some (some v) => some (i, v)
    | _ => none).head?

/-- Nearest populated position strictly after `k` in a column. -/
def findNextVal (xs : List (Option ℚ)) (k : Nat) : Option (Nat × ℚ) :=
  (((List.range (xs.length - (k + 1))).map fun d => k + 1 + d).filterMap fun i =>
    match xs.get? i with
    | some (some v) => some (i, v)
    | _ => none).head?

/-- `Series.interpolate(method="linear", limit=2)` on one column: a missing
position with a populated predecessor is filled when at most `limit`
consecutive missing positions precede it (counted from the run's start);
the value interpolates linearly to the nearest populated successor, or
repeats the predecessor when none exists (`np.interp` clamps on the
right).  Leading missing positions are never filled. -/
def interpCol (xs : List (Option ℚ)) : List (Option ℚ) :=
  (List.range xs.length).map fun k =>
    match xs.get? k with
    | some (some v) => some v
    | _ =>
      match findPrevVal xs k with
      | none => none
      | some (i, vi) =>
        if k - i ≤ 2 then
          match findNextVal xs k with
          | some (j, vj) => some (vi + (vj - vi) * ((k - i : ℚ)) / ((j - i : ℚ)))
          | none => some vi
        else none

/-- `df.set_index("timestamp").resample(rule).mean().interpolate(limit=2)`:
bucket the rows (bins anchored at midnight of the first row's day),
average each field over each bucket, then gap-fill each field column.
Returns one row per bucket with the bucket's left edge as timestamp. -/
def resampleMeanInterp (width : Int) (fields : List String) (xs : List (Int × Row)) :
    List (Int × List (Option ℚ)) :=
  match xs.head? with
  | none => []
  | some first =>
    let anchor := dayAnchor first.1
    let b0 := bucketOf anchor width first.1
    let bLast := bucketOf anchor width ((xs.map Prod.fst).foldl max first.1)
    let count := ((bLast - b0).fdiv width).toNat + 1
    let buckets := (List.range count).map fun (k : Nat) => b0 + width * (k : Int)
    let colsVals : List (List (Option ℚ)) := fields.map fun c =>
      buckets.map fun b =>
        colMean ((xs.filter fun p => bucketOf anchor width p.1 = b).filterMap fun p =>
          match dictGet p.2 c with
          | some (.rnum q) => some q
          | _ => none)
    let interped := colsVals.map interpCol
    (List.range count).map fun (k : Nat) =>
      (b0 + width * (k : Int), interped.map fun col => (col.get? k).getD none)

/-- `build_slice(raw_json, start, end, vars, resample)`.  `Except.error`
models an uncaught exception (from the normalizer, an unparseable or naive
bound, a non-numeric column under resampling, or a bad frequency). -/
def build_slice (raw_json : PyVal) (start end_ : Option String)
    (vars : Option (List String)) (resample : Option String) :
    Except String SliceResult :=
  match normalize_rowwise raw_json with
  | .error e => .error e
  | .ok rows =>
    if rows.isEmpty then .ok emptySlice
    else
      let cols := frameCols rows
      if "timestamp" ∉ cols then .ok emptySlice
      else
        -- to_datetime(utc=True, errors="coerce") + dropna + sort_values
        let parsed := rows.filterMap fun r =>
          (cellToUs (dictGet r "timestamp")).map fun u => (u, r)
        let sorted := parsed.mergeSort fun a b => a.1 ≤ b.1
        match applyBound start (fun t u => u ≤ t) sorted with
        | .error e => .error e
        | .ok afterStart =>
          match applyBound end_ (fun t u => t ≤ u) afterStart with
          | .error e => .error e
          | .ok inRange =>
            -- choose variables
            let fields :=
              match vars with
              | some vs =>
                if vs.isEmpty then cols.filter fun c => c ≠ "timestamp" ∧ colNumeric rows c
                else vs.filter fun v => v ∈ cols
              | none => cols.filter fun c => c ≠ "timestamp" ∧ colNumeric rows c
            match resample with
            | some rule =>
              if rule = "" then
                .ok (mkPoints fields inRange)
              else if fields.all (colNumeric rows) then
                match parseFreq rule with
                | none => .error "ValueError"
                | some width =>
                  let grid := resampleMeanInterp width fields inRange
                  let pts := grid.map fun p =>
                    ORow.mk p.1 (fields.zip (p.2.map fun oc => oc.map RVal.rnum))
                  .ok ⟨pts, pts.length⟩
              else .error "TypeError"
            | none => .ok (mkPoints fields inRange)
where
  /-- Materialise the kept columns of the filtered frame as records
  (missing cells are `NaN`), already ascending by timestamp. -/
  mkPoints (fields : List String) (xs : List (Int × Row)) : SliceResult :=
    let pts := (xs.mergeSort fun a b => a.1 ≤ b.1).map fun p =>
      ORow.mk p.1 (fields.map fun c => (c, dictGet p.2 c))
    ⟨pts, pts.length⟩

/-! ## `app/api/routes/compare.py` (series merger)

The loader builds one frame per station from its slice's points, skips
empty frames, prefixes every non-timestamp column with the station id, and
folds `pd.merge(..., on="timestamp", how="outer")` over the frames; the
final frame is sorted ascending by timestamp.  Frames are modelled
positionally: a list of column names plus rows of (timestamp, cells). -/

structure MFrame where
  cols : List String
  rows : List (Int × List (Option RVal))
deriving DecidableEq, Repr

structure MergedResult where
  ids : List String
  cols : List String
  points : List (Int × List (Option RVal))
  points_count : Nat
deriving DecidableEq, Repr

/-- `sorted(set(ids))`. -/
def dedupSort (ids : List String) : List String :=
  (ids.dedup.mergeSort fun a b => a ≤ b)

/-- Prefix every non-timestamp column with the station id. -/
def prefixFrame (sid : String) (f : MFrame) : MFrame :=
  ⟨f.cols.map fun c => sid ++ ":" ++ c, f.rows⟩

/-- `pd.merge(A, B, on="timestamp", how="outer")`: rows matched on equal
timestamps (all pairs when several match), unmatched left rows padded with
missing cells on the right and vice versa.  The exact row order is
irrelevant downstream (the caller re-sorts). -/
def mergeTwo (A B : MFrame) : MFrame :=
  let leftRows := A.rows.flatMap fun ra =>
    match B.rows.filter fun rb => rb.1 = ra.1 with
    | [] => [(ra.1, ra.2 ++ List.replicate B.cols.length none)]
    | bs => bs.map fun rb => (ra.1, ra.2 ++ rb.2)
  let rightOnly := (B.rows.filter fun rb => A.rows.all fun ra => ra.1 ≠ rb.1).map fun rb =>
    (rb.1, List.replicate A.cols.length (none : Option RVal) ++ rb.2)
  ⟨A.cols ++ B.cols, leftRows ++ rightOnly⟩

/-- The frame-collection loop of `compare`'s loader: one frame per station
in sorted-id order, empty slices skipped, columns prefixed. -/
def compareFrames (stationIds : List String) (slice : String → MFrame) : List MFrame :=
  (dedupSort stationIds).filterMap fun sid =>
    let f := slice sid
    if f.rows.isEmpty then none else some (prefixFrame sid f)

/-- The body of `compare`'s loader, given the per-station slices (the
station's frame of points): build, skip-empty, prefix, fold outer merges,
sort ascending by timestamp. -/
def compareLoader (stationIds : List String) (slice : String → MFrame) : MergedResult :=
  let idsSorted := dedupSort stationIds
  match compareFrames stationIds slice with
  | [] => ⟨idsSorted, [], [], 0⟩
  | f0 :: rest =>
    let merged := rest.foldl mergeTwo f0
    let pts := merged.rows.mergeSort fun a b => a.1 ≤ b.1
    ⟨idsSorted, merged.cols, pts, pts.length⟩

/-! ## `app/services/upstream.py` (`fetch_station_raw`)

The HTTP world is a parameter: `none` models a transport/timeout failure
raised by the client, `some resp` the received response.  httpx's
`raise_for_status` raises for every non-2xx status (including 3xx).
Redis writes are returned as an explicit list, recording the TTL each
`set` carried (`none` = no expiry). -/

structure HttpResp where
  status : Nat
  etagHeader : Option String
  lastModifiedHeader : Option String
  body : String
deriving DecidableEq, Repr

/-- The station's revalidation entries in redis. -/
structure RevalState where
  etag : Option String
  lastmod : Option String
  raw : Option String
deriving DecidableEq, Repr

inductive RWrite where
  | wEtag (v : String)
  | wLastmod (v : String)
  | wRaw (v : String) (ttl : Nat)
deriving DecidableEq, Repr

def CACHE_TTL_RAW : Nat := 6 * 60 * 60

def CACHE_TTL_SLICE : Nat := 5 * 60

/-- Python truthiness of an optional string: `None` and the empty string
(or empty bytes) are falsy.  This is the test performed by `if cached:`
and by the walrus conditions `if e := resp.headers.get(...)`. -/
def truthyStr : Option String → Option String
  | some s => if s = "" then none else some s
  | none => none

/-- `fetch_station_raw` for one station: returns the body text and the
performed cache writes, or an error (transport failure or
`raise_for_status`).  The 304 path returns the cached raw body only when
`if cached:` is truthy — a cached EMPTY body (possible after a 2xx with
empty text) is falsy, so the code falls through to `raise_for_status`,
which raises on the 304.  Likewise the walrus tests skip empty
`ETag`/`Last-Modified` header values. -/
def fetch_station_raw (st : RevalState) (resp : Option HttpResp) :
    Except String (String × RevalState × List RWrite) :=
  match resp with
  | none => .error "ConnectError"
  | some r =>
    match (if r.status = 304 then truthyStr st.raw else none) with
    | some cached => .ok (cached, st, [])
    | none =>
      if 200 ≤ r.status ∧ r.status ≤ 299 then
        let w1 : List RWrite := match truthyStr r.etagHeader with
          | some e => [.wEtag e]
          | none => []
        let w2 : List RWrite := match truthyStr r.lastModifiedHeader with
          | some l => [.wLastmod l]
          | none => []
        let st2 : RevalState :=
          ⟨(match truthyStr r.etagHeader with | some e => some e | none => st.etag),
           (match truthyStr r.lastModifiedHeader with | some l => some l | none => st.lastmod),
           some r.body⟩
        .ok (r.body, st2, w1 ++ w2 ++ [.wRaw r.body CACHE_TTL_RAW])
      else .error "HTTPStatusError"

/-! ## `app/core/cache.py` (`cached_json`)

Two views are formalised.

The sequential view (used for the corrupted-entry claim) runs one request
to completion: the redis store holds raw strings, `json.loads` /
`json.dumps` appear as `decode` / `encode` parameters (the standard
library treated at its interface), and the emitted redis operations are
returned as a trace.  The `async with lock` of a single uncontended task
acquires immediately and is invisible to the store.

The concurrent view (used for the single-flight claim) is a small-step
interleaving semantics over N cooperative tasks; the `json` round-trip is
idealised as the identity so the store holds values directly. -/

structure KVStore where
  entries : List (String × String)
deriving Repr

def kvGet (kv : KVStore) (k : String) : Option String :=
  (kv.entries.find? fun e => e.1 = k).map Prod.snd

def kvDel (kv : KVStore) (k : String) : KVStore :=
  ⟨kv.entries.filter fun e => e.1 ≠ k⟩

def kvSet (kv : KVStore) (k v : String) : KVStore :=
  ⟨(k, v) :: kv.entries.filter fun e => e.1 ≠ k⟩

inductive KOp where
  | opGet (k : String)
  | opDel (k : String)
  | opSet (k : String) (v : String) (ttl : Nat)
deriving DecidableEq, Repr

/-- `cached_json(key, ttl, loader)` run by a single task: the corrupted-hit
path deletes the entry and falls through to the locked re-read; inside the
lock a decode failure is NOT caught (`return json.loads(cached)`), which
models as an error. -/
def cachedJsonSeq (decode : String → Option PyVal) (encode : PyVal → String)
    (key : String) (ttl : Nat) (loadVal : PyVal) (kv : KVStore) :
    Except String (PyVal × KVStore × List KOp) :=
  let step2 : KVStore → List KOp → Except String (PyVal × KVStore × List KOp) :=
    fun kv1 ops =>
      -- under the per-key lock: re-check, else load, store, return
      match kvGet kv1 key with
      | some cached =>
        match decode cached with
        | some v => .ok (v, kv1, ops ++ [.opGet key])
        | none => .error "JSONDecodeError"
      | none =>
        let data := loadVal
        .ok (data, kvSet kv1 key (encode data),
          ops ++ [.opGet key, .opSet key (encode data) ttl])
  match kvGet kv key with
  | some cached =>
    match decode cached with
    | some v => .ok (v, kv, [.opGet key])
    | none => step2 (kvDel kv key) [.opGet key, .opDel key]
  | none => step2 kv [.opGet key]

/-! ### Concurrent view of `cached_json` (single-flight)

N cooperative asyncio tasks run `cached_json` on one unpopulated key.
Each await is a scheduling point; the code between awaits runs atomically.
A task's control points: before the first `r.get` (`tStart`), waiting on
the lock (`tWant`), holding the lock before the re-read (`tHave`), about
to call the loader (`tLoad`), about to store and release (`tStore`), and
returned with a value (`tDone`).  The loader is deterministic with value
`v`; `cnt` counts its invocations. -/

inductive TPC where
  | tStart
  | tWant
  | tHave
  | tLoad
  | tStore
  | tDone (r : PyVal)

structure TState (n : Nat) where
  cache : Option PyVal
  lockBusy : Bool
  cnt : Nat
  tasks : Fin n → TPC

/-- One scheduling step of one task. -/
inductive TStep (v : PyVal) : TState n → TState n → Prop
  | get1Hit (s : TState n) (i : Fin n) (c : PyVal) :
      s.tasks i = .tStart → s.cache = some c →
      TStep v s ⟨s.cache, s.lockBusy, s.cnt, Function.update s.tasks i (.tDone c)⟩
  | get1Miss (s : TState n) (i : Fin n) :
      s.tasks i = .tStart → s.cache = none →
      TStep v s ⟨s.cache, s.lockBusy, s.cnt, Function.update s.tasks i .tWant⟩
  | acquire (s : TState n) (i : Fin n) :
      s.tasks i = .tWant → s.lockBusy = false →
      TStep v s ⟨s.cache, true, s.cnt, Function.update s.tasks i .tHave⟩
  | get2Hit (s : TState n) (i : Fin n) (c : PyVal) :
      s.tasks i = .tHave → s.cache = some c →
      TStep v s ⟨s.cache, false, s.cnt, Function.update s.tasks i (.tDone c)⟩
  | get2Miss (s : TState n) (i : Fin n) :
      s.tasks i = .tHave → s.cache = none →
      TStep v s ⟨s.cache, s.lockBusy, s.cnt, Function.update s.tasks i .tLoad⟩
  | runLoader (s : TState n) (i : Fin n) :
      s.tasks i = .tLoad →
      TStep v s ⟨s.cache, s.lockBusy, s.cnt + 1, Function.update s.tasks i .tStore⟩
  | setRelease (s : TState n) (i : Fin n) :
      s.tasks i = .tStore →
      TStep v s ⟨some v, false, s.cnt, Function.update s.tasks i (.tDone v)⟩

/-- Reachability under any interleaving. -/
def TReach (v : PyVal) : TState n → TState n → Prop :=
  Relation.ReflTransGen (TStep v)

/-- All N tasks at the first `await r.get(key)`, key unpopulated, lock
free, loader not yet run. -/
def tInit (n : Nat) : TState n := ⟨none, false, 0, fun _ => .tStart⟩

/-- A task currently inside the `async with lock` block. -/
def tOwner : TPC → Prop
  | .tHave => True
  | .tLoad => True
  | .tStore => True
  | _ => False

/-- Inductive invariant of the single-flight protocol for one key whose
loader value is `v`. -/
structure TInv (v : PyVal) (s : TState n) : Prop where
  cacheOk : s.cache = none ∨ s.cache = some v
  doneOk : ∀ i r, s.tasks i = .tDone r → r = v
  doneCache : ∀ i r, s.tasks i = .tDone r → s.cache = some v
  lockFree : s.lockBusy = false → ∀ i, ¬ tOwner (s.tasks i)
  ownerUniq : ∀ i j, tOwner (s.tasks i) → tOwner (s.tasks j) → i = j
  phase : (s.cnt = 0 ∧ s.cache = none ∧ ∀ i, s.tasks i ≠ .tStore) ∨
      (s.cnt = 1 ∧ s.cache = none ∧ ∃ i, s.tasks i = .tStore) ∨
      (s.cnt = 1 ∧ s.cache = some v ∧ ∀ i, s.tasks i ≠ .tStore ∧ s.tasks i ≠ .tLoad)

/-- The string branch of the timestamp rule as the spec words it: only a
TRAILING `Z` is rewritten to `+00:00` before parsing.  (The code instead
replaces every occurrence.)  Kept for comparison against `_to_iso`. -/
def toIsoStrClaim (s : String) : Option String :=
  let s2 :=
    match s.toList.getLast? with
    | some c => if c = 'Z' then String.mk (s.toList.dropLast ++ "+00:00".toList) else s
    | none => s
  match pyFromIso s2 with
  | none => none
  | some dt =>
    let us := dtUsUtc dt
    if usInRange us then some (isoOfUs us) else none

/-- A `points` document whose only entry carries a NaN timestamp (legal
output of `json.loads`). -/
def docNan : PyVal :=
  .pydict [("points", .pylist [.pydict [("timestamp", .pyfloat .nan)]])]

/-- A `points` document whose first element names its time via `time`, so
the time key is `time`, while a later element also carries a numeric field
literally called `timestamp`. -/
def docShadow : PyVal :=
  .pydict [("points", .pylist
    [.pydict [("time", .pystr "x")],
     .pydict [("time", .pyint 1), ("timestamp", .pyint 99)]])]

/-- An ISO-like string whose date-time separator is a non-trailing `Z`
(`fromisoformat` accepts any single separator character). -/
def sepCex : String := "2024-01-02Z03:04:05"

/-- A one-point document used for the slice-filter counterexample. -/
def docPoint : PyVal :=
  .pydict [("points", .pylist [.pydict [("timestamp", .pyint 0), ("x", .pyint 1)]])]

/-- Resample input with field `x` present only in the first of two
buckets: the second bucket is a trailing gap for `x`. -/
def rowsTrailingGap : List (Int × Row) :=
  [(0, [("x", .rnum 1), ("y", .rnum 1)]), (usPerHour, [("y", .rnum 2)])]

/-- The loader value used by the single-flight demonstration run. -/
def c3Val : PyVal := .pyint 7

/-- States of a concrete 2-task run of `cached_json`: task 0 executes the
whole miss path, then task 1 hits the populated cache. -/
def c3S1 : TState 2 := ⟨none, false, 0, Function.update (tInit 2).tasks 0 .tWant⟩

def c3S2 : TState 2 := ⟨none, true, 0, Function.update c3S1.tasks 0 .tHave⟩

def c3S3 : TState 2 := ⟨none, true, 0, Function.update c3S2.tasks 0 .tLoad⟩

def c3S4 : TState 2 := ⟨none, true, 1, Function.update c3S3.tasks 0 .tStore⟩

def c3S5 : TState 2 := ⟨some c3Val, false, 1, Function.update c3S4.tasks 0 (.tDone c3Val)⟩

def c3S6 : TState 2 := ⟨some c3Val, false, 1, Function.update c3S5.tasks 1 (.tDone c3Val)⟩

theorem TInv.step {n : Nat} {v : PyVal} {s s₂ : TState n}
    (hinv : TInv v s) (hs : TStep v s s₂) : TInv v s₂ := by
  cases hs with
  | get1Hit i c hpc hcache =>
    have hcv : c = v := by
      rcases hinv.cacheOk with h | h
      · rw [h] at hcache; cases hcache
      · rw [h] at hcache; injection hcache with h2; exact h2.symm
    refine ⟨hinv.cacheOk, ?_, ?_, ?_, ?_, ?_⟩
    · intro j r hj
      simp only [Function.update_apply] at hj
      by_cases hji : j = i
      · simp [hji] at hj; rw [← hj]; exact hcv
      · simp [hji] at hj; exact hinv.doneOk j r hj
    · intro j r hj
      rw [hcache, hcv]
    · intro hl j
      simp only [Function.update_apply]
      by_cases hji : j = i
      · simp [hji, tOwner]
      · simp [hji]; exact hinv.lockFree hl j
    · intro j k hj hk
      simp only [Function.update_apply] at hj hk
      by_cases hji : j = i
      · simp [hji, tOwner] at hj
      · by_cases hki : k = i
        · simp [hki, tOwner] at hk
        · simp [hji] at hj; simp [hki] at hk; exact hinv.ownerUniq j k hj hk
    · rcases hinv.phase with ⟨h1, h2, h3⟩ | ⟨h1, h2, h3⟩ | ⟨h1, h2, h3⟩
      · rw [h2] at hcache; cases hcache
      · rw [h2] at hcache; cases hcache
      · refine Or.inr (Or.inr ⟨h1, h2, ?_⟩)
        intro j
        simp only [Function.update_apply]
        by_cases hji : j = i
        · simp [hji]
        · simp [hji]; exact h3 j
  | get1Miss i hpc hcache =>
    refine ⟨hinv.cacheOk, ?_, ?_, ?_, ?_, ?_⟩
    · intro j r hj
      simp only [Function.update_apply] at hj
      by_cases hji : j = i
      · simp [hji] at hj
      · simp [hji] at hj; exact hinv.doneOk j r hj
    · intro j r hj
      simp only [Function.update_apply] at hj
      by_cases hji : j = i
      · simp [hji] at hj
      · simp [hji] at hj; exact hinv.doneCache j r hj
    · intro hl j
      simp only [Function.update_apply]
      by_cases hji : j = i
      · simp [hji, tOwner]
      · simp [hji]; exact hinv.lockFree hl j
    · intro j k hj hk
      simp only [Function.update_apply] at hj hk
      by_cases hji : j = i
      · simp [hji, tOwner] at hj
      · by_cases hki : k = i
        · simp [hki, tOwner] at hk
        · simp [hji] at hj; simp [hki] at hk; exact hinv.ownerUniq j k hj hk
    · rcases hinv.phase with ⟨h1, h2, h3⟩ | ⟨h1, h2, h3⟩ | ⟨h1, h2, h3⟩
      · refine Or.inl ⟨h1, h2, ?_⟩
        intro j
        simp only [Function.update_apply]
        by_cases hji : j = i
        · simp [hji]
        · simp [hji]; exact h3 j
      · refine Or.inr (Or.inl ⟨h1, h2, ?_⟩)
        obtain ⟨j, hj⟩ := h3
        have hji : j ≠ i := by
          intro he; rw [he, hpc] at hj; cases hj
        exact ⟨j, by simp only [Function.update_apply]; simp [hji]; exact hj⟩
      · rw [h2] at hcache; cases hcache
  | acquire i hpc hlock =>
    refine ⟨hinv.cacheOk, ?_, ?_, ?_, ?_, ?_⟩
    · intro j r hj
      simp only [Function.update_apply] at hj
      by_cases hji : j = i
      · simp [hji] at hj
      · simp [hji] at hj; exact hinv.doneOk j r hj
    · intro j r hj
      simp only [Function.update_apply] at hj
      by_cases hji : j = i
      · simp [hji] at hj
      · simp [hji] at hj; exact hinv.doneCache j r hj
    · intro hl; cases hl
    · intro j k hj hk
      simp only [Function.update_apply] at hj hk
      have hnone := hinv.lockFree hlock
      by_cases hji : j = i
      · by_cases hki : k = i
        · rw [hji, hki]
        · simp [hki] at hk; exact absurd hk (hnone k)
      · simp [hji] at hj; exact absurd hj (hnone j)
    · rcases hinv.phase with ⟨h1, h2, h3⟩ | ⟨h1, h2, h3⟩ | ⟨h1, h2, h3⟩
      · refine Or.inl ⟨h1, h2, ?_⟩
        intro j
        simp only [Function.update_apply]
        by_cases hji : j = i
        · simp [hji]
        · simp [hji]; exact h3 j
      · obtain ⟨j, hj⟩ := h3
        exact absurd (by rw [hj]; trivial) (hinv.lockFree hlock j)
      · refine Or.inr (Or.inr ⟨h1, h2, ?_⟩)
        intro j
        simp only [Function.update_apply]
        by_cases hji : j = i
        · simp [hji]
        · simp [hji]; exact h3 j
  | get2Hit i c hpc hcache =>
    have hcv : c = v := by
      rcases hinv.cacheOk with h | h
      · rw [h] at hcache; cases hcache
      · rw [h] at hcache; injection hcache with h2; exact h2.symm
    refine ⟨hinv.cacheOk, ?_, ?_, ?_, ?_, ?_⟩
    · intro j r hj
      simp only [Function.update_apply] at hj
      by_cases hji : j = i
      · simp [hji] at hj; rw [← hj]; exact hcv
      · simp [hji] at hj; exact hinv.doneOk j r hj
    · intro j r hj
      rw [hcache, hcv]
    · intro hl j
      simp only [Function.update_apply]
      by_cases hji : j = i
      · simp [hji, tOwner]
      · simp [hji]
        intro how
        have := hinv.ownerUniq j i how (by rw [hpc]; trivial)
        exact hji this
    · intro j k hj hk
      simp only [Function.update_apply] at hj hk
      by_cases hji : j = i
      · simp [hji, tOwner] at hj
      · by_cases hki : k = i
        · simp [hki, tOwner] at hk
        · simp [hji] at hj; simp [hki] at hk; exact hinv.ownerUniq j k hj hk
    · rcases hinv.phase with ⟨h1, h2, h3⟩ | ⟨h1, h2, h3⟩ | ⟨h1, h2, h3⟩
      · rw [h2] at hcache; cases hcache
      · rw [h2] at hcache; cases hcache
      · refine Or.inr (Or.inr ⟨h1, h2, ?_⟩)
        intro j
        simp only [Function.update_apply]
        by_cases hji : j = i
        · simp [hji]
        · simp [hji]; exact h3 j
  | get2Miss i hpc hcache =>
    refine ⟨hinv.cacheOk, ?_, ?_, ?_, ?_, ?_⟩
    · intro j r hj
      simp only [Function.update_apply] at hj
      by_cases hji : j = i
      · simp [hji] at hj
      · simp [hji] at hj; exact hinv.doneOk j r hj
    · intro j r hj
      simp only [Function.update_apply] at hj
      by_cases hji : j = i
      · simp [hji] at hj
      · simp [hji] at hj; exact hinv.doneCache j r hj
    · intro hl j
      have := hinv.lockFree hl i
      rw [hpc] at this
      exact absurd trivial this
    · intro j k hj hk
      simp only [Function.update_apply] at hj hk
      by_cases hji : j = i
      · by_cases hki : k = i
        · rw [hji, hki]
        · simp [hki] at hk
          have := hinv.ownerUniq k i hk (by rw [hpc]; trivial)
          exact absurd this hki
      · simp [hji] at hj
        by_cases hki : k = i
        · have := hinv.ownerUniq j i hj (by rw [hpc]; trivial)
          exact absurd this hji
        · simp [hki] at hk; exact hinv.ownerUniq j k hj hk
    · rcases hinv.phase with ⟨h1, h2, h3⟩ | ⟨h1, h2, h3⟩ | ⟨h1, h2, h3⟩
      · refine Or.inl ⟨h1, h2, ?_⟩
        intro j
        simp only [Function.update_apply]
        by_cases hji : j = i
        · simp [hji]
        · simp [hji]; exact h3 j
      · obtain ⟨j, hj⟩ := h3
        have hji : j ≠ i := by
          intro he; rw [he, hpc] at hj; cases hj
        have := hinv.ownerUniq j i (by rw [hj]; trivial) (by rw [hpc]; trivial)
        exact absurd this hji
      · rw [h2] at hcache; cases hcache
  | runLoader i hpc =>
    refine ⟨hinv.cacheOk, ?_, ?_, ?_, ?_, ?_⟩
    · intro j r hj
      simp only [Function.update_apply] at hj
      by_cases hji : j = i
      · simp [hji] at hj
      · simp [hji] at hj; exact hinv.doneOk j r hj
    · intro j r hj
      simp only [Function.update_apply] at hj
      by_cases hji : j = i
      · simp [hji] at hj
      · simp [hji] at hj; exact hinv.doneCache j r hj
    · intro hl j
      have := hinv.lockFree hl i
      rw [hpc] at this
      exact absurd trivial this
    · intro j k hj hk
      simp only [Function.update_apply] at hj hk
      by_cases hji : j = i
      · by_cases hki : k = i
        · rw [hji, hki]
        · simp [hki] at hk
          have := hinv.ownerUniq k i hk (by rw [hpc]; trivial)
          exact absurd this hki
      · simp [hji] at hj
        by_cases hki : k = i
        · have := hinv.ownerUniq j i hj (by rw [hpc]; trivial)
          exact absurd this hji
        · simp [hki] at hk; exact hinv.ownerUniq j k hj hk
    · rcases hinv.phase with ⟨h1, h2, h3⟩ | ⟨h1, h2, h3⟩ | ⟨h1, h2, h3⟩
      · refine Or.inr (Or.inl ⟨by rw [h1], h2, ⟨i, ?_⟩⟩)
        simp only [Function.update_apply]; simp
      · obtain ⟨j, hj⟩ := h3
        have hji : j ≠ i := by
          intro he; rw [he, hpc] at hj; cases hj
        have := hinv.ownerUniq j i (by rw [hj]; trivial) (by rw [hpc]; trivial)
        exact absurd this hji
      · exact absurd hpc (h3 i).2
  | setRelease i hpc =>
    refine ⟨Or.inr rfl, ?_, ?_, ?_, ?_, ?_⟩
    · intro j r hj
      simp only [Function.update_apply] at hj
      by_cases hji : j = i
      · simp [hji] at hj; exact hj.symm
      · simp [hji] at hj; exact hinv.doneOk j r hj
    · intro j r hj
      rfl
    · intro hl j
      simp only [Function.update_apply]
      by_cases hji : j = i
      · simp [hji, tOwner]
      · simp [hji]
        intro how
        have := hinv.ownerUniq j i how (by rw [hpc]; trivial)
        exact hji this
    · intro j k hj hk
      simp only [Function.update_apply] at hj hk
      by_cases hji : j = i
      · simp [hji, tOwner] at hj
      · by_cases hki : k = i
        · simp [hki, tOwner] at hk
        · simp [hji] at hj; simp [hki] at hk; exact hinv.ownerUniq j k hj hk
    · rcases hinv.phase with ⟨h1, h2, h3⟩ | ⟨h1, h2, h3⟩ | ⟨h1, h2, h3⟩
      · exact absurd hpc (h3 i)
      · refine Or.inr (Or.inr ⟨h1, rfl, ?_⟩)
        intro j
        simp only [Function.update_apply]
        by_cases hji : j = i
        · simp [hji]
        · simp [hji]
          constructor
          · intro hst
            have := hinv.ownerUniq j i (by rw [hst]; trivial) (by rw [hpc]; trivial)
            exact absurd this hji
          · intro hld
            have := hinv.ownerUniq j i (by rw [hld]; trivial) (by rw [hpc]; trivial)
            exact absurd this hji
      · exact absurd hpc (h3 i).1

theorem tInv_init (v : PyVal) (n : Nat) : TInv v (tInit n) := by
  refine ⟨Or.inl rfl, ?_, ?_, ?_, ?_, Or.inl ⟨rfl, rfl, ?_⟩⟩
  · intro i r h; cases h
  · intro i r h; cases h
  · intro _ i h; cases h
  · intro i j hi _; cases hi
  · intro i h; cases h

theorem tInv_reach {n : Nat} {v : PyVal} {s : TState n}
    (h : TReach v (tInit n) s) : TInv v s := by
  induction h with
  | refl => exact tInv_init v n
  | tail _ hstep ih => exact ih.step hstep

theorem dictGet_dictSet (r : Row) (k key : String) (v : RVal) :
    dictGet (dictSet r k v) key = if k = key then some v else dictGet r key := by
  induction r with
  | nil => simp [dictSet, dictGet]
  | cons hd tl ih =>
    obtain ⟨k0, v0⟩ := hd
    by_cases h0 : k0 = k
    · subst h0
      by_cases h : k0 = key <;> simp [dictSet, dictGet, h]
    · by_cases h1 : k0 = key
      · subst h1
        have h2 : ¬(k = k0) := fun he => h0 he.symm
        simp [dictSet, dictGet, h0, h2]
      · simp [dictSet, dictGet, h0, h1, ih]

theorem rowFields_ts (tk : String) (items : List (String × PyVal)) (row : Row) (key : String)
    (h : (dictGet row key).isSome) : (dictGet (rowFields tk items row) key).isSome := by
  induction items generalizing row with
  | nil => simpa [rowFields] using h
  | cons hd tl ih =>
    obtain ⟨k, v⟩ := hd
    by_cases hk : k = tk
    · simpa [rowFields, hk] using ih row h
    · cases hc : coerceField v with
      | none => simpa [rowFields, hk, hc] using ih row h
      | some q =>
        have : (dictGet (dictSet row k (.rnum q)) key).isSome := by
          rw [dictGet_dictSet]
          by_cases hkey : k = key <;> simp [hkey, h]
        simpa [rowFields, hk, hc] using ih _ this

theorem colFields_ts (tkey : String) (cols : List (String × PyVal)) (i : Nat) (row : Row)
    (key : String) (h : (dictGet row key).isSome) :
    (dictGet (colFields tkey cols i row) key).isSome := by
  induction cols generalizing row with
  | nil => simpa [colFields] using h
  | cons hd tl ih =>
    obtain ⟨k, v⟩ := hd
    by_cases hk : k = tkey
    · simpa [colFields, hk] using ih row h
    · have hset : ∀ q : ℚ, (dictGet (dictSet row k (.rnum q)) key).isSome := by
        intro q
        rw [dictGet_dictSet]
        by_cases hkey : k = key <;> simp [hkey, h]
      cases v with
      | pylist xs =>
        cases hx : xs[i]? with
        | none => simpa [colFields, hk, hx] using ih row h
        | some w =>
          cases hc : coerceField w with
          | none => simpa [colFields, hk, hx, hc] using ih row h
          | some q => simpa [colFields, hk, hx, hc] using ih _ (hset q)
      | pynull => simpa [colFields, hk] using ih row h
      | pybool b => simpa [colFields, hk] using ih row h
      | pyint m => simpa [colFields, hk] using ih row h
      | pyfloat f => simpa [colFields, hk] using ih row h
      | pystr s2 => simpa [colFields, hk] using ih row h
      | pydict kvs => simpa [colFields, hk] using ih row h

theorem rowsA_ts (tk : String) (data : List PyVal) (l : List Row)
    (h : rowsA tk data = .ok l) : ∀ r ∈ l, (dictGet r "timestamp").isSome := by
  induction data generalizing l with
  | nil =>
    simp [rowsA] at h
    subst h
    intro r hr
    cases hr
  | cons p rest ih =>
    cases p with
    | pydict items =>
      simp only [rowsA] at h
      cases hiso : _to_iso ((dictGetV items tk).getD .pynull) with
      | error e => simp only [hiso] at h; cases h
      | ok o =>
        cases o with
        | none => simp only [hiso] at h; exact ih l h
        | some iso =>
          simp only [hiso] at h
          by_cases hempty : iso = ""
          · rw [if_pos hempty] at h; exact ih l h
          · rw [if_neg hempty] at h
            cases hrest : rowsA tk rest with
            | error e => simp only [hrest] at h; cases h
            | ok rs =>
              simp only [hrest] at h
              injection h with h2
              subst h2
              intro r hr
              rcases List.mem_cons.mp hr with hr | hr
              · subst hr
                exact rowFields_ts tk items [("timestamp", .rstr iso)] "timestamp" (by simp [dictGet])
              · exact ih rs hrest r hr
    | pynull => exact ih l h
    | pybool b => exact ih l h
    | pyint m => exact ih l h
    | pyfloat f => exact ih l h
    | pystr s2 => exact ih l h
    | pylist xs => exact ih l h

theorem rowsCols_ts (tkey : String) (cols : List (String × PyVal)) (i : Nat)
    (tarr : List PyVal) (l : List Row) (h : rowsCols tkey cols i tarr = .ok l) :
    ∀ r ∈ l, (dictGet r "timestamp").isSome := by
  induction tarr generalizing i l with
  | nil =>
    simp [rowsCols] at h
    subst h
    intro r hr
    cases hr
  | cons t trest ih =>
    simp only [rowsCols] at h
    cases hiso : _to_iso t with
    | error e => simp only [hiso] at h; cases h
    | ok o =>
      cases o with
      | none => simp only [hiso] at h; exact ih (i + 1) l h
      | some iso =>
        simp only [hiso] at h
        by_cases hempty : iso = ""
        · rw [if_pos hempty] at h; exact ih (i + 1) l h
        · rw [if_neg hempty] at h
          cases hrest : rowsCols tkey cols (i + 1) trest with
          | error e => simp only [hrest] at h; cases h
          | ok rs =>
            simp only [hrest] at h
            injection h with h2
            subst h2
            intro r hr
            rcases List.mem_cons.mp hr with hr | hr
            · subst hr
              exact colFields_ts tkey cols i [("timestamp", .rstr iso)] "timestamp" (by simp [dictGet])
            · exact ih (i + 1) rs hrest r hr

theorem sortRows_mem (l rows : List Row) (h : sortRows l = .ok rows) :
    ∀ r ∈ rows, r ∈ l := by
  unfold sortRows at h
  by_cases h1 : l.all fun r => rvalIsStr (rowTsKey r)
  · rw [if_pos h1] at h
    injection h with h2
    subst h2
    intro r hr
    exact List.mem_mergeSort.mp hr
  · rw [if_neg h1] at h
    by_cases h2 : l.all fun r => ¬rvalIsStr (rowTsKey r)
    · rw [if_pos h2] at h
      injection h with h3
      subst h3
      intro r hr
      exact List.mem_mergeSort.mp hr
    · rw [if_neg h2] at h
      cases h

theorem normalize_rows_ts (raw : PyVal) (rows : List Row)
    (h : normalize_rowwise raw = .ok rows) :
    ∀ r ∈ rows, (dictGet r "timestamp").isSome := by
  intro r hr
  cases raw with
  | pydict obj =>
    simp only [normalize_rowwise] at h
    cases hpts : dictGetV obj "points" with
    | some pv =>
      cases pv with
      | pylist data =>
        simp only [hpts] at h
        cases ha : rowsA (pickTk data) data with
        | error e => rw [ha] at h; cases h
        | ok l =>
          rw [ha] at h
          exact rowsA_ts _ data l ha r (sortRows_mem l rows h r hr)
      | pydict data =>
        simp only [hpts] at h
        cases hfind : timeKeyCandidates.find? fun cand => (dictGetV data cand).isSome with
        | none => simp only [hfind] at h; injection h with h2; subst h2; cases hr
        | some tkey =>
          simp only [hfind] at h
          cases htarr : dictGetV data tkey with
          | none => simp only [htarr] at h; injection h with h2; subst h2; cases hr
          | some tv =>
            simp only [htarr] at h
            cases tv with
            | pylist tarr =>
              cases hc : rowsCols tkey data 0 tarr with
              | error e => simp only [hc] at h; cases h
              | ok l =>
                simp only [hc] at h
                exact rowsCols_ts tkey data 0 tarr l hc r (sortRows_mem l rows h r hr)
            | pynull => injection h with h2; subst h2; cases hr
            | pybool b => injection h with h2; subst h2; cases hr
            | pyint m => injection h with h2; subst h2; cases hr
            | pyfloat f => injection h with h2; subst h2; cases hr
            | pystr s2 => injection h with h2; subst h2; cases hr
            | pydict kvs => injection h with h2; subst h2; cases hr
      | pynull =>
        simp only [hpts] at h
        revert h
        by_cases hall : (!obj.isEmpty && obj.all fun kv =>
            match kv.2 with | .pylist _ => true | _ => false) = true
        · rw [if_pos hall]
          intro h
          cases hfind : timeKeyCandidates.find? fun cand => (dictGetV obj cand).isSome with
          | none => simp only [hfind] at h; injection h with h2; subst h2; cases hr
          | some tkey =>
            simp only [hfind] at h
            cases htarr : dictGetV obj tkey with
            | none => simp only [htarr] at h; injection h with h2; subst h2; cases hr
            | some tv =>
              simp only [htarr] at h
              cases tv with
              | pylist tarr =>
                cases hc : rowsCols tkey obj 0 tarr with
                | error e => simp only [hc] at h; cases h
                | ok l =>
                  simp only [hc] at h
                  exact rowsCols_ts tkey obj 0 tarr l hc r (sortRows_mem l rows h r hr)
              | pynull => injection h with h2; subst h2; cases hr
              | pybool b => injection h with h2; subst h2; cases hr
              | pyint m => injection h with h2; subst h2; cases hr
              | pyfloat f => injection h with h2; subst h2; cases hr
              | pystr s2 => injection h with h2; subst h2; cases hr
              | pydict kvs => injection h with h2; subst h2; cases hr
        · rw [if_neg hall]
          intro h
          injection h with h2
          subst h2
          cases hr
      | pybool b =>
        simp only [hpts] at h
        revert h
        by_cases hall : (!obj.isEmpty && obj.all fun kv =>
            match kv.2 with | .pylist _ => true | _ => false) = true
        · rw [if_pos hall]
          intro h
          cases hfind : timeKeyCandidates.find? fun cand => (dictGetV obj cand).isSome with
          | none => simp only [hfind] at h; injection h with h2; subst h2; cases hr
          | some tkey =>
            simp only [hfind] at h
            cases htarr : dictGetV obj tkey with
            | none => simp only [htarr] at h; injection h with h2; subst h2; cases hr
            | some tv =>
              simp only [htarr] at h
              cases tv with
              | pylist tarr =>
                cases hc : rowsCols tkey obj 0 tarr with
                | error e => simp only [hc] at h; cases h
                | ok l =>
                  simp only [hc] at h
                  exact rowsCols_ts tkey obj 0 tarr l hc r (sortRows_mem l rows h r hr)
              | pynull => injection h with h2; subst h2; cases hr
              | pybool b2 => injection h with h2; subst h2; cases hr
              | pyint m => injection h with h2; subst h2; cases hr
              | pyfloat f => injection h with h2; subst h2; cases hr
              | pystr s2 => injection h with h2; subst h2; cases hr
              | pydict kvs => injection h with h2; subst h2; cases hr
        · rw [if_neg hall]
          intro h
          injection h with h2
          subst h2
          cases hr
      | pyint m =>
        simp only [hpts] at h
        revert h
        by_cases hall : (!obj.isEmpty && obj.all fun kv =>
            match kv.2 with | .pylist _ => true | _ => false) = true
        · rw [if_pos hall]
          intro h
          cases hfind : timeKeyCandidates.find? fun cand => (dictGetV obj cand).isSome with
          | none => simp only [hfind] at h; injection h with h2; subst h2; cases hr
          | some tkey =>
            simp only [hfind] at h
            cases htarr : dictGetV obj tkey with
            | none => simp only [htarr] at h; injection h with h2; subst h2; cases hr
            | some tv =>
              simp only [htarr] at h
              cases tv with
              | pylist tarr =>
                cases hc : rowsCols tkey obj 0 tarr with
                | error e => simp only [hc] at h; cases h
                | ok l =>
                  simp only [hc] at h
                  exact rowsCols_ts tkey obj 0 tarr l hc r (sortRows_mem l rows h r hr)
              | pynull => injection h with h2; subst h2; cases hr
              | pybool b => injection h with h2; subst h2; cases hr
              | pyint m2 => injection h with h2; subst h2; cases hr
              | pyfloat f => injection h with h2; subst h2; cases hr
              | pystr s2 => injection h with h2; subst h2; cases hr
              | pydict kvs => injection h with h2; subst h2; cases hr
        · rw [if_neg hall]
          intro h
          injection h with h2
          subst h2
          cases hr
      | pyfloat f =>
        simp only [hpts] at h
        revert h
        by_cases hall : (!obj.isEmpty && obj.all fun kv =>
            match kv.2 with | .pylist _ => true | _ => false) = true
        · rw [if_pos hall]
          intro h
          cases hfind : timeKeyCandidates.find? fun cand => (dictGetV obj cand).isSome with
          | none => simp only [hfind] at h; injection h with h2; subst h2; cases hr
          | some tkey =>
            simp only [hfind] at h
            cases htarr : dictGetV obj tkey with
            | none => simp only [htarr] at h; injection h with h2; subst h2; cases hr
            | some tv =>
              simp only [htarr] at h
              cases tv with
              | pylist tarr =>
                cases hc : rowsCols tkey obj 0 tarr with
                | error e => simp only [hc] at h; cases h
                | ok l =>
                  simp only [hc] at h
                  exact rowsCols_ts tkey obj 0 tarr l hc r (sortRows_mem l rows h r hr)
              | pynull => injection h with h2; subst h2; cases hr
              | pybool b => injection h with h2; subst h2; cases hr
              | pyint m => injection h with h2; subst h2; cases hr
              | pyfloat f2 => injection h with h2; subst h2; cases hr
              | pystr s2 => injection h with h2; subst h2; cases hr
              | pydict kvs => injection h with h2; subst h2; cases hr
        · rw [if_neg hall]
          intro h
          injection h with h2
          subst h2
          cases hr
      | pystr s2 =>
        simp only [hpts] at h
        revert h
        by_cases hall : (!obj.isEmpty && obj.all fun kv =>
            match kv.2 with | .pylist _ => true | _ => false) = true
        · rw [if_pos hall]
          intro h
          cases hfind : timeKeyCandidates.find? fun cand => (dictGetV obj cand).isSome with
          | none => simp only [hfind] at h; injection h with h2; subst h2; cases hr
          | some tkey =>
            simp only [hfind] at h
            cases htarr : dictGetV obj tkey with
            | none => simp only [htarr] at h; injection h with h2; subst h2; cases hr
            | some tv =>
              simp only [htarr] at h
              cases tv with
              | pylist tarr =>
                cases hc : rowsCols tkey obj 0 tarr with
                | error e => simp only [hc] at h; cases h
                | ok l =>
                  simp only [hc] at h
                  exact rowsCols_ts tkey obj 0 tarr l hc r (sortRows_mem l rows h r hr)
              | pynull => injection h with h2; subst h2; cases hr
              | pybool b => injection h with h2; subst h2; cases hr
              | pyint m => injection h with h2; subst h2; cases hr
              | pyfloat f => injection h with h2; subst h2; cases hr
              | pystr s3 => injection h with h2; subst h2; cases hr
              | pydict kvs => injection h with h2; subst h2; cases hr
        · rw [if_neg hall]
          intro h
          injection h with h2
          subst h2
          cases hr
    | none =>
      simp only [hpts] at h
      revert h
      by_cases hall : (!obj.isEmpty && obj.all fun kv =>
          match kv.2 with | .pylist _ => true | _ => false) = true
      · rw [if_pos hall]
        intro h
        cases hfind : timeKeyCandidates.find? fun cand => (dictGetV obj cand).isSome with
        | none => simp only [hfind] at h; injection h with h2; subst h2; cases hr
        | some tkey =>
          simp only [hfind] at h
          cases htarr : dictGetV obj tkey with
          | none => simp only [htarr] at h; injection h with h2; subst h2; cases hr
          | some tv =>
            cases tv with
            | pylist tarr =>
              simp only [htarr] at h
              cases hc : rowsCols tkey obj 0 tarr with
              | error e => simp only [hc] at h; cases h
              | ok l =>
                simp only [hc] at h
                exact rowsCols_ts tkey obj 0 tarr l hc r (sortRows_mem l rows h r hr)
            | pynull => simp only [htarr] at h; injection h with h2; subst h2; cases hr
            | pybool b => simp only [htarr] at h; injection h with h2; subst h2; cases hr
            | pyint m => simp only [htarr] at h; injection h with h2; subst h2; cases hr
            | pyfloat f => simp only [htarr] at h; injection h with h2; subst h2; cases hr
            | pystr s2 => simp only [htarr] at h; injection h with h2; subst h2; cases hr
            | pydict kvs => simp only [htarr] at h; injection h with h2; subst h2; cases hr
      · rw [if_neg hall]
        intro h
        injection h with h2
        subst h2
        cases hr
  | pynull => injection h with h2; subst h2; cases hr
  | pybool b => injection h with h2; subst h2; cases hr
  | pyint m => injection h with h2; subst h2; cases hr
  | pyfloat f => injection h with h2; subst h2; cases hr
  | pystr s2 => injection h with h2; subst h2; cases hr
  | pylist xs => injection h with h2; subst h2; cases hr

theorem dictGet_mem (r : Row) (k : String) (v : RVal) (h : dictGet r k = some v) :
    (k, v) ∈ r := by
  induction r with
  | nil => cases h
  | cons hd tl ih =>
    obtain ⟨k0, v0⟩ := hd
    by_cases h0 : k0 = k
    · subst h0
      simp only [dictGet, if_pos rfl] at h
      injection h with h2
      subst h2
      exact List.mem_cons_self _ _
    · simp only [dictGet, if_neg h0] at h
      exact List.mem_cons_of_mem _ (ih h)

theorem foldl_insert_preserves (r : Row) (acc : List String) (k : String) (h : k ∈ acc) :
    k ∈ r.foldl (fun acc2 kv => if kv.1 ∈ acc2 then acc2 else acc2 ++ [kv.1]) acc := by
  induction r generalizing acc with
  | nil => simpa using h
  | cons hd tl ih =>
    simp only [List.foldl_cons]
    apply ih
    by_cases hm : hd.1 ∈ acc
    · simpa [hm] using h
    · simp only [if_neg hm]
      exact List.mem_append.mpr (Or.inl h)

theorem foldl_insert_mem (r : Row) (acc : List String) (k : String) (v : RVal)
    (h : (k, v) ∈ r) :
    k ∈ r.foldl (fun acc2 kv => if kv.1 ∈ acc2 then acc2 else acc2 ++ [kv.1]) acc := by
  induction r generalizing acc with
  | nil => cases h
  | cons hd tl ih =>
    simp only [List.foldl_cons]
    rcases List.mem_cons.mp h with he | hm
    · have hk : hd.1 = k := by rw [← he]
      apply foldl_insert_preserves
      by_cases hacc : hd.1 ∈ acc
      · simp only [if_pos hacc]
        exact hk ▸ hacc
      · simp only [if_neg hacc]
        exact List.mem_append.mpr (Or.inr (List.mem_singleton.mpr hk.symm))
    · exact ih _ hm

theorem foldl_rows_preserves (rows : List Row) (acc : List String) (k : String) (h : k ∈ acc) :
    k ∈ rows.foldl
      (fun acc r => r.foldl (fun acc2 kv => if kv.1 ∈ acc2 then acc2 else acc2 ++ [kv.1]) acc)
      acc := by
  induction rows generalizing acc with
  | nil => simpa using h
  | cons hd tl ih =>
    simp only [List.foldl_cons]
    exact ih _ (foldl_insert_preserves hd acc k h)

theorem mem_frameCols_aux (rows : List Row) (k : String) (v : RVal) (r : Row)
    (h : (k, v) ∈ r) :
    ∀ acc, r ∈ rows →
      k ∈ rows.foldl
        (fun acc r => r.foldl (fun acc2 kv => if kv.1 ∈ acc2 then acc2 else acc2 ++ [kv.1]) acc)
        acc := by
  induction rows with
  | nil => intro acc hr; cases hr
  | cons hd tl ih =>
    intro acc hr
    simp only [List.foldl_cons]
    rcases List.mem_cons.mp hr with he | hm
    · subst he
      exact foldl_rows_preserves tl _ k (foldl_insert_mem r acc k v h)
    · exact ih _ hm

theorem mem_frameCols (rows : List Row) (r : Row) (hr : r ∈ rows) (k : String) (v : RVal)
    (h : (k, v) ∈ r) : k ∈ frameCols rows :=
  mem_frameCols_aux rows k v r h [] hr

theorem mergeTwo_ts (A B : MFrame) (t : Int) :
    (∃ p ∈ (mergeTwo A B).rows, p.1 = t) ↔
      (∃ p ∈ A.rows, p.1 = t) ∨ ∃ p ∈ B.rows, p.1 = t := by
  constructor
  · rintro ⟨p, hp, hpt⟩
    rcases List.mem_append.mp hp with hl | hr
    · rcases List.mem_flatMap.mp hl with ⟨ra, hra, hpra⟩
      left
      refine ⟨ra, hra, ?_⟩
      revert hpra
      cases hbs : B.rows.filter fun rb => rb.1 = ra.1 with
      | nil =>
        intro hpra
        rcases List.mem_singleton.mp hpra with rfl
        exact hpt
      | cons b bs =>
        intro hpra
        rcases List.mem_map.mp hpra with ⟨rb, _, hrb2⟩
        rw [← hrb2] at hpt
        exact hpt
    · rcases List.mem_map.mp hr with ⟨rb, hrb, hrb2⟩
      right
      refine ⟨rb, (List.mem_filter.mp hrb).1, ?_⟩
      rw [← hrb2] at hpt
      exact hpt
  · intro h
    rcases h with ⟨ra, hra, hrat⟩ | ⟨rb, hrb, hrbt⟩
    · cases hbs : B.rows.filter fun rb => rb.1 = ra.1 with
      | nil =>
        exact ⟨(ra.1, ra.2 ++ List.replicate B.cols.length none),
          List.mem_append.mpr (Or.inl (List.mem_flatMap.mpr
            ⟨ra, hra, by rw [hbs]; exact List.mem_singleton.mpr rfl⟩)), hrat⟩
      | cons b bs =>
        exact ⟨(ra.1, ra.2 ++ b.2),
          List.mem_append.mpr (Or.inl (List.mem_flatMap.mpr
            ⟨ra, hra, by rw [hbs]; exact List.mem_map.mpr ⟨b, List.mem_cons_self b bs, rfl⟩⟩)),
          hrat⟩
    · by_cases hmatch : ∃ ra ∈ A.rows, ra.1 = rb.1
      · obtain ⟨ra, hra, hraeq⟩ := hmatch
        cases hbs : B.rows.filter fun rb2 => rb2.1 = ra.1 with
        | nil =>
          have : rb ∈ B.rows.filter fun rb2 => rb2.1 = ra.1 :=
            List.mem_filter.mpr ⟨hrb, by simp [hraeq]⟩
          rw [hbs] at this
          cases this
        | cons b bs =>
          refine ⟨(ra.1, ra.2 ++ b.2),
            List.mem_append.mpr (Or.inl (List.mem_flatMap.mpr
              ⟨ra, hra, by rw [hbs]; exact List.mem_map.mpr ⟨b, List.mem_cons_self b bs, rfl⟩⟩)),
            ?_⟩
        
          rw [hraeq]
          exact hrbt
      · refine ⟨(rb.1, List.replicate A.cols.length none ++ rb.2),
          List.mem_append.mpr (Or.inr (List.mem_map.mpr ⟨rb, ?_, rfl⟩)), hrbt⟩
        refine List.mem_filter.mpr ⟨hrb, ?_⟩
        simp only [List.all_eq_true]
        intro ra hra
        push_neg at hmatch
        simpa using hmatch ra hra

theorem foldl_mergeTwo_ts (rest : List MFrame) (f0 : MFrame) (t : Int) :
    (∃ p ∈ (rest.foldl mergeTwo f0).rows, p.1 = t) ↔
      (∃ p ∈ f0.rows, p.1 = t) ∨ ∃ f ∈ rest, ∃ p ∈ f.rows, p.1 = t := by
  induction rest generalizing f0 with
  | nil => simp
  | cons hd tl ih =>
    simp only [List.foldl_cons]
    rw [ih (mergeTwo f0 hd)]
    rw [mergeTwo_ts]
    constructor
    · rintro ((h | h) | h)
      · exact Or.inl h
      · exact Or.inr ⟨hd, List.mem_cons_self hd tl, h⟩
      · obtain ⟨f, hf, hp⟩ := h
        exact Or.inr ⟨f, List.mem_cons_of_mem hd hf, hp⟩
    · rintro (h | ⟨f, hf, hp⟩)
      · exact Or.inl (Or.inl h)
      · rcases List.mem_cons.mp hf with rfl | hf2
        · exact Or.inl (Or.inr hp)
        · exact Or.inr ⟨f, hf2, hp⟩

theorem foldl_mergeTwo_cols (rest : List MFrame) (f0 : MFrame) (c : String) :
    c ∈ (rest.foldl mergeTwo f0).cols ↔ c ∈ f0.cols ∨ ∃ f ∈ rest, c ∈ f.cols := by
  induction rest generalizing f0 with
  | nil => simp
  | cons hd tl ih =>
    simp only [List.foldl_cons]
    rw [ih (mergeTwo f0 hd)]
    show c ∈ f0.cols ++ hd.cols ∨ _ ↔ _
    rw [List.mem_append]
    constructor
    · rintro ((h | h) | h)
      · exact Or.inl h
      · exact Or.inr ⟨hd, List.mem_cons_self hd tl, h⟩
      · obtain ⟨f, hf, hp⟩ := h
        exact Or.inr ⟨f, List.mem_cons_of_mem hd hf, hp⟩
    · rintro (h | ⟨f, hf, hp⟩)
      · exact Or.inl (Or.inl h)
      · rcases List.mem_cons.mp hf with rfl | hf2
        · exact Or.inl (Or.inr hp)
        · exact Or.inr ⟨f, hf2, hp⟩

theorem bucketOf_add_mul (anchor w t k : Int) (hw : 0 < w) :
    bucketOf anchor w (t + k * w) = bucketOf anchor w t + k * w := by
  unfold bucketOf
  rw [Int.fdiv_eq_ediv _ hw.le, Int.fdiv_eq_ediv _ hw.le,
    show t + k * w - anchor = t - anchor + k * w by ring,
    Int.add_mul_ediv_right _ _ (by omega : w ≠ 0)]
  ring

theorem rowFields_get_not_mem (tk : String) (items : List (String × PyVal)) (row : Row)
    (k : String) (h : k ∉ items.map Prod.fst) :
    dictGet (rowFields tk items row) k = dictGet row k := by
  induction items generalizing row with
  | nil => rfl
  | cons hd tl ih =>
    obtain ⟨k0, v0⟩ := hd
    have hk0 : k0 ≠ k := by
      intro he
      exact h (by simp [he])
    have htl : k ∉ tl.map Prod.fst := by
      intro hm
      exact h (by simp [hm])
    by_cases hk : k0 = tk
    · simpa [rowFields, hk] using ih row htl
    · cases hc : coerceField v0 with
      | none => simpa [rowFields, hk, hc] using ih row htl
      | some q =>
        have := ih (dictSet row k0 (.rnum q)) htl
        simp only [rowFields, if_neg hk, hc]
        rw [this, dictGet_dictSet, if_neg hk0]

theorem kvGet_kvDel (kv : KVStore) (k : String) : kvGet (kvDel kv k) k = none := by
  unfold kvGet kvDel
  have hfind : List.find? (fun e => decide (e.1 = k))
      (List.filter (fun e => decide (e.1 ≠ k)) kv.entries) = none := by
    rw [List.find?_eq_none]
    intro x hx
    have h2 := (List.mem_filter.mp hx).2
    simp only [decide_eq_true_eq] at h2 ⊢
    exact h2
  simp [hfind]

/-- C1 (code bug): the spec promises that `normalize` terminates normally on
every malformed document, silently dropping bad points; but on a points
entry whose timestamp is NaN (which `json.loads` produces for the `NaN`
literal) the code evaluates `int(t * 1000)` OUTSIDE the `try` block of
`_to_iso` and raises an uncaught `ValueError`. -/
theorem c1_normalize_raises_on_nan :
    normalize_rowwise docNan = .error "ValueError" := rfl

unseal List.merge List.mergeSort in
/-- C2 (code bug): the spec's invariant says every canonical point carries a
valid ISO `timestamp` string and that fields can never collide with it; but
the loop only skips the CHOSEN time key (`time` here, taken from the first
element), so a later numeric field literally named `timestamp` overwrites
the canonical timestamp with a float. -/
theorem c2_timestamp_field_overwrites :
    normalize_rowwise docShadow = .ok [[("timestamp", RVal.rnum 99)]] ∧
    rvalIsStr (rowTsKey [("timestamp", RVal.rnum 99)]) = false := by
  refine ⟨by decide, rfl⟩

theorem rowFields_bool_field (tk k : String) (b : Bool) :
    ∀ (items : List (String × PyVal)) (row0 : Row),
      (items.map Prod.fst).Nodup → k ≠ tk → dictGetV items k = some (.pybool b) →
      dictGet (rowFields tk items row0) k = some (.rnum (if b then 1 else 0)) := by
  intro items
  induction items with
  | nil =>
    intro row0 _ _ hv
    cases hv
  | cons hd tl ih =>
    intro row0 hnd hk hv
    obtain ⟨k0, v0⟩ := hd
    simp only [List.map_cons, List.nodup_cons] at hnd
    by_cases h0 : k0 = k
    · subst h0
      simp only [dictGetV, if_pos rfl] at hv
      injection hv with hv2
      subst hv2
      simp only [rowFields, if_neg hk,
        show coerceField (.pybool b) = some (if b then (1 : ℚ) else 0) from rfl]
      rw [rowFields_get_not_mem tk tl _ k0 hnd.1, dictGet_dictSet, if_pos rfl]
    · have hv2 : dictGetV tl k = some (.pybool b) := by
        simpa [dictGetV, h0] using hv
      by_cases hk0 : k0 = tk
      · simpa [rowFields, hk0] using ih row0 hnd.2 hk hv2
      · cases hc : coerceField v0 with
        | none => simpa [rowFields, hk0, hc] using ih row0 hnd.2 hk hv2
        | some q => simpa [rowFields, hk0, hc] using ih (dictSet row0 k0 (.rnum q)) hnd.2 hk hv2

/-- C10: Python `bool` is a subclass of `int`, so a field holding `true` or
`false` passes `_is_num` and the row loop stores `float(v)`, i.e. `1.0` or
`0.0`, instead of dropping the field. -/
theorem c10_bool_fields_admitted (tk k : String) (items : List (String × PyVal)) (b : Bool)
    (row0 : Row) (hnd : (items.map Prod.fst).Nodup) (hk : k ≠ tk)
    (hv : dictGetV items k = some (.pybool b)) :
    _is_num (.pybool b) = true ∧
    dictGet (rowFields tk items row0) k = some (.rnum (if b then 1 else 0)) :=
  ⟨rfl, rowFields_bool_field tk k b items row0 hnd hk hv⟩

/-- Witness for C10 at a concrete point `(time = 0, flag = true)`. -/
theorem c10_witness :
    _is_num (.pybool true) = true ∧
    dictGet (rowFields "time" [("time", .pyint 0), ("flag", .pybool true)]
      [("timestamp", .rstr "1970-01-01T00:00:00+00:00")]) "flag" =
      some (.rnum (if true then 1 else 0)) :=
  c10_bool_fields_admitted "time" "flag" [("time", .pyint 0), ("flag", .pybool true)] true
    [("timestamp", .rstr "1970-01-01T00:00:00+00:00")] (by decide) (by decide) rfl

/-- C9: a stored cache entry that fails to deserialize is deleted, the read
is treated as a miss, the loader recomputes, the fresh value is stored with
the given TTL and returned; the decode failure never escapes as an
exception (the result is `ok`, not `error`). -/
theorem c9_corrupted_entry_recovered (decode : String → Option PyVal) (encode : PyVal → String)
    (key : String) (ttl : Nat) (v : PyVal) (kv : KVStore) (s : String)
    (hhit : kvGet kv key = some s) (hbad : decode s = none) :
    cachedJsonSeq decode encode key ttl v kv =
      .ok (v, kvSet (kvDel kv key) key (encode v),
        [.opGet key, .opDel key, .opGet key, .opSet key (encode v) ttl]) := by
  simp [cachedJsonSeq, hhit, hbad, kvGet_kvDel]

/-- Witness for C9: a concrete store holding undecodable bytes under `k`. -/
theorem c9_witness :
    cachedJsonSeq (fun _ => none) (fun _ => "enc") "k" 300 (.pyint 5) ⟨[("k", "garbage")]⟩ =
      .ok (.pyint 5, kvSet (kvDel ⟨[("k", "garbage")]⟩ "k") "k" "enc",
        [.opGet "k", .opDel "k", .opGet "k", .opSet "k" "enc" 300]) :=
  c9_corrupted_entry_recovered (fun _ => none) (fun _ => "enc") "k" 300 (.pyint 5)
    ⟨[("k", "garbage")]⟩ "garbage" rfl rfl

/-- C8: `fetch_station_raw` returns the cached raw body on a 304 when a
truthy one exists (Python's `if cached:` — a cached empty body is falsy
and the 304 falls through to `raise_for_status`, which raises); on a 2xx
it persists the returned non-empty validators (no TTL) and the body (with
the bounded 6-hour TTL) and returns the body text; a transport failure or
any response that is neither 2xx nor a 304-with-truthy-cached-body
raises. -/
theorem c8_fetch_contract (st : RevalState) (resp : Option HttpResp) :
    (resp = none → ∃ e, fetch_station_raw st resp = .error e) ∧
    (∀ r c, resp = some r → r.status = 304 → st.raw = some c → c ≠ "" →
      fetch_station_raw st resp = .ok (c, st, [])) ∧
    (∀ r, resp = some r → 200 ≤ r.status → r.status ≤ 299 →
      fetch_station_raw st resp =
        .ok (r.body,
          ⟨(match truthyStr r.etagHeader with | some e => some e | none => st.etag),
           (match truthyStr r.lastModifiedHeader with | some l => some l | none => st.lastmod),
           some r.body⟩,
          (match truthyStr r.etagHeader with | some e => [.wEtag e] | none => []) ++
            (match truthyStr r.lastModifiedHeader with | some l => [.wLastmod l] | none => []) ++
            [.wRaw r.body CACHE_TTL_RAW]) ∧
      CACHE_TTL_RAW = 21600) ∧
    (∀ r, resp = some r → ¬(200 ≤ r.status ∧ r.status ≤ 299) →
      ¬(r.status = 304 ∧ (truthyStr st.raw).isSome) →
      ∃ e, fetch_station_raw st resp = .error e) ∧
    (∀ r, resp = some r → r.status = 304 → truthyStr st.raw = none →
      ∃ e, fetch_station_raw st resp = .error e) := by
  refine ⟨?_, ?_, ?_, ?_, ?_⟩
  · rintro rfl
    exact ⟨"ConnectError", rfl⟩
  · rintro r c rfl h304 hraw hcne
    simp [fetch_station_raw, truthyStr, h304, hraw, hcne]
  · rintro r rfl h2a h2b
    have h304 : r.status ≠ 304 := by omega
    refine ⟨?_, rfl⟩
    simp [fetch_station_raw, h304, h2a, h2b]
  · rintro r rfl hnot2 hnot304
    unfold fetch_station_raw
    by_cases h304 : r.status = 304
    · have hraw : truthyStr st.raw = none := by
        cases hr : truthyStr st.raw with
        | none => rfl
        | some c => exact absurd ⟨h304, by rw [hr]; rfl⟩ hnot304
      simp [h304, hraw, hnot2]
    · simp [h304, hnot2]
  · rintro r rfl h304 hraw
    have hnot2 : ¬(200 ≤ r.status ∧ r.status ≤ 299) := by omega
    refine ⟨"HTTPStatusError", ?_⟩
    simp [fetch_station_raw, h304, hraw, hnot2]

/-- Witness for C8: a 304 with a truthy cached body, a 2xx with a
non-empty ETag header, and a 304 whose cached body is the falsy empty
string (the raising path). -/
theorem c8_witness :
    fetch_station_raw ⟨none, none, some "body"⟩ (some ⟨304, none, none, ""⟩) =
      .ok ("body", ⟨none, none, some "body"⟩, []) ∧
    fetch_station_raw ⟨none, none, none⟩ (some ⟨200, some "tag", none, "fresh"⟩) =
      .ok ("fresh", ⟨some "tag", none, some "fresh"⟩, [.wEtag "tag", .wRaw "fresh" 21600]) ∧
    ∃ e, fetch_station_raw ⟨none, none, some ""⟩ (some ⟨304, none, none, ""⟩) = .error e := by
  have h := c8_fetch_contract ⟨none, none, some "body"⟩ (some ⟨304, none, none, ""⟩)
  have h2 := c8_fetch_contract ⟨none, none, none⟩ (some ⟨200, some "tag", none, "fresh"⟩)
  have h4 := c8_fetch_contract ⟨none, none, some ""⟩ (some ⟨304, none, none, ""⟩)
  refine ⟨h.2.1 ⟨304, none, none, ""⟩ "body" rfl rfl rfl (by decide), ?_, ?_⟩
  · have h3 := (h2.2.2.1 ⟨200, some "tag", none, "fresh"⟩ rfl (by norm_num) (by norm_num)).1
    simpa using h3
  · exact h4.2.2.2.2 ⟨304, none, none, ""⟩ rfl rfl (by decide)

/-- Counterexample to C8: the claim says the previously cached raw body is
returned on a 304 "when one exists", and that "any returned" validator
headers are persisted on a 2xx.  A cached EMPTY body exists (it is
reachable from a 2xx whose response text was empty) but is falsy under
Python's `if cached:`, so a 304 falls through to `raise_for_status` and
raises instead of returning it; likewise an empty `ETag` header value is
returned by the server but fails the walrus truthiness test and is never
persisted. -/
theorem c8_counterexample :
    fetch_station_raw ⟨none, none, some ""⟩ (some ⟨304, none, none, ""⟩) =
      .error "HTTPStatusError" ∧
    fetch_station_raw ⟨none, none, none⟩ (some ⟨200, some "", none, "b"⟩) =
      .ok ("b", ⟨none, none, some "b"⟩, [.wRaw "b" 21600]) := by
  exact ⟨rfl, rfl⟩

/-- Counterexample to C4: the claim says only a TRAILING `Z` is rewritten.
`fromisoformat` accepts any single character as the date-time separator, so
under the claim's rule the string `2024-01-02Z03:04:05` (separator `Z`, no
trailing `Z`) parses as a naive datetime and converts; the code instead
rewrites EVERY `Z`, producing `2024-01-02+00:0003:04:05`, which fails to
parse, so the point is dropped. -/
theorem c4_counterexample :
    toIsoStrClaim sepCex = some "2024-01-02T03:04:05+00:00" ∧
    _to_iso (.pystr sepCex) = .ok none := by
  refine ⟨by decide, by decide⟩

/-- C4 (amended): characterisation of `_to_iso`.  A finite numeric above
1e12 is taken as epoch milliseconds, otherwise as seconds times 1000, and
renders as UTC ISO-8601 with offset when the instant is representable and
drops the point when it is not; a NaN or infinite numeric raises
(ValueError/OverflowError) instead of being dropped; a string has EVERY
`Z` rewritten to `+00:00` (not only a trailing one), is parsed, a value
without offset is assumed UTC, and renders in UTC when representable;
every other type yields no timestamp. -/
theorem c4_to_iso_characterisation :
    (∀ n : Int, n > 1000000000000 → usInRange (n * 1000) →
      _to_iso (.pyint n) = .ok (some (isoOfUs (n * 1000)))) ∧
    (∀ n : Int, ¬n > 1000000000000 → usInRange (n * 1000 * 1000) →
      _to_iso (.pyint n) = .ok (some (isoOfUs (n * 1000 * 1000)))) ∧
    (∀ n : Int, ¬n > 1000000000000 → ¬usInRange (n * 1000 * 1000) →
      _to_iso (.pyint n) = .ok none) ∧
    (∀ q : ℚ, q > 1000000000000 →
      _to_iso (.pyfloat (.fin q)) = .ok (fromtimestampIso (ratTrunc q))) ∧
    (∀ q : ℚ, ¬q > 1000000000000 →
      _to_iso (.pyfloat (.fin q)) = .ok (fromtimestampIso (ratTrunc (1000 * q)))) ∧
    (∀ b : Bool, _to_iso (.pybool b) = .ok (fromtimestampIso (if b then 1000 else 0))) ∧
    _to_iso (.pyfloat .nan) = .error "ValueError" ∧
    _to_iso (.pyfloat .inf) = .error "OverflowError" ∧
    _to_iso (.pyfloat .ninf) = .error "OverflowError" ∧
    (∀ s : String, pyFromIso (replaceZ s) = none → _to_iso (.pystr s) = .ok none) ∧
    (∀ s : String, ∀ dt : PyDatetime, pyFromIso (replaceZ s) = some dt →
      usInRange (dtUsUtc dt) → _to_iso (.pystr s) = .ok (some (isoOfUs (dtUsUtc dt)))) ∧
    (∀ s : String, ∀ dt : PyDatetime, pyFromIso (replaceZ s) = some dt →
      ¬usInRange (dtUsUtc dt) → _to_iso (.pystr s) = .ok none) ∧
    _to_iso .pynull = .ok none ∧
    (∀ xs, _to_iso (.pylist xs) = .ok none) ∧
    (∀ kvs, _to_iso (.pydict kvs) = .ok none) := by
  refine ⟨?_, ?_, ?_, ?_, ?_, ?_, rfl, rfl, rfl, ?_, ?_, ?_, rfl, fun _ => rfl, fun _ => rfl⟩
  · intro n h1 h2
    simp [_to_iso, fromtimestampIso, if_pos h1, h2]
  · intro n h1 h2
    have h2b : usInRange (n * 1000000) = true := by
      rw [show n * 1000000 = n * 1000 * 1000 by ring]
      exact h2
    simp [_to_iso, fromtimestampIso, if_neg h1, h2, h2b,
      show n * 1000000 = n * 1000 * 1000 by ring]
  · intro n h1 h2
    simp only [_to_iso, fromtimestampIso, if_neg h1]
    rw [if_neg (by simpa using h2)]
  · intro q h1
    simp [_to_iso, if_pos h1]
  · intro q h1
    simp [_to_iso, if_neg h1]
  · intro b
    rfl
  · intro s hparse
    simp [_to_iso, toIsoStr, hparse]
  · intro s dt hparse hin
    simp [_to_iso, toIsoStr, hparse, hin]
  · intro s dt hparse hin
    simp [_to_iso, toIsoStr, hparse, hin]

/-- Witness for C4 at concrete inputs: the integer second timestamp 1 and a
trailing-Z string. -/
theorem c4_witness :
    _to_iso (.pyint 1) = .ok (some (isoOfUs ((1 : Int) * 1000 * 1000))) ∧
    _to_iso (.pystr "1970-01-01T00:00:01Z") =
      .ok (some (isoOfUs (dtUsUtc ⟨1970, 1, 1, 0, 0, 1, 0, some 0⟩))) := by
  have h := c4_to_iso_characterisation
  refine ⟨h.2.1 1 (by norm_num) (by decide), ?_⟩
  exact h.2.2.2.2.2.2.2.2.2.2.1 "1970-01-01T00:00:01Z" ⟨1970, 1, 1, 0, 0, 1, 0, some 0⟩
    (by decide) (by decide)

unseal List.merge List.mergeSort in
/-- Counterexample to C5: `pd.to_datetime(start)` is called WITHOUT
`utc=True`, so the parseable bound `2024-01-01` stays timezone-naive and
comparing it against the tz-aware timestamp column raises `TypeError`
instead of filtering. -/
theorem c5_naive_bound_raises :
    pandasParseStr "2024-01-01" = some (1704067200000000, false) ∧
    build_slice docPoint (some "2024-01-01") none none none = .error "TypeError" := by
  refine ⟨by decide, by decide⟩

/-- C5 (amended): for bounds that parse as timezone-AWARE datetimes, the
slice retains exactly the normalized points whose (re-parsed) timestamp is
`>= start` and `<= end`, both bounds inclusive, without error: the result
is a permutation-exact filtered set, sorted ascending, with
`points_count = len(points)`.  (A naive bound instead raises, see the
counterexample.) -/
theorem c5_slice_time_filter (raw : PyVal) (rows : List Row) (sStr eStr : String)
    (us ue : Int) (hn : normalize_rowwise raw = .ok rows)
    (hs : pandasParseStr sStr = some (us, true))
    (he : pandasParseStr eStr = some (ue, true)) :
    ∃ res, build_slice raw (some sStr) (some eStr) none none = .ok res ∧
      (res.points.map ORow.ts).Perm
        (((rows.filterMap fun r => (cellToUs (dictGet r "timestamp")).map fun u => (u, r)).filter
            fun p => us ≤ p.1 ∧ p.1 ≤ ue).map Prod.fst) ∧
      res.points.Pairwise (fun a b => a.ts ≤ b.ts) ∧
      res.points_count = res.points.length := by
  have hsne : sStr ≠ "" := by
    rintro rfl
    rw [show pandasParseStr "" = none from rfl] at hs
    cases hs
  have hene : eStr ≠ "" := by
    rintro rfl
    rw [show pandasParseStr "" = none from rfl] at he
    cases he
  by_cases hrows : rows.isEmpty
  · have hrnil : rows = [] := by simpa [List.isEmpty_iff] using hrows
    subst hrnil
    refine ⟨emptySlice, ?_, ?_, ?_, rfl⟩
    · simp [build_slice, hn]
    · simp [emptySlice]
    · simp [emptySlice]
  · have hne : rows ≠ [] := by simpa [List.isEmpty_iff] using hrows
    obtain ⟨r0, hr0⟩ := List.exists_mem_of_ne_nil rows hne
    have hts := normalize_rows_ts raw rows hn r0 hr0
    obtain ⟨v0, hv0⟩ := Option.isSome_iff_exists.mp hts
    have hcol : "timestamp" ∈ frameCols rows :=
      mem_frameCols rows r0 hr0 _ v0 (dictGet_mem _ _ _ hv0)
    have hcol2 : ¬("timestamp" ∉ frameCols rows) := not_not_intro hcol
    simp only [build_slice, hn, hrows, Bool.false_eq_true, if_false, if_neg hcol2,
      applyBound, if_neg hsne, if_neg hene, hs, he, if_true, build_slice.mkPoints]
    set parsed := rows.filterMap fun r =>
      (cellToUs (dictGet r "timestamp")).map fun u => (u, r) with hparsed
    set le2 : Int × Row → Int × Row → Bool := fun a b => a.1 ≤ b.1 with hle2
    refine ⟨_, rfl, ?_, ?_, rfl⟩
    · rw [List.map_map]
      have hcomp : (ORow.ts ∘ fun p : Int × Row =>
          ORow.mk p.1 (((frameCols rows).filter fun c =>
            c ≠ "timestamp" ∧ colNumeric rows c).map fun c => (c, dictGet p.2 c))) =
          Prod.fst := rfl
      rw [hcomp]
      refine ((List.mergeSort_perm _ _).map _).trans ?_
      rw [List.filter_filter]
      refine (((List.mergeSort_perm parsed le2).filter _).map _).trans ?_
      have hpred : (fun (a : Int × Row) => decide (a.1 ≤ ue) && decide (us ≤ a.1)) =
          fun p => decide (us ≤ p.1 ∧ p.1 ≤ ue) := by
        funext p
        by_cases h1 : us ≤ p.1 <;> by_cases h2 : p.1 ≤ ue <;> simp [h1, h2]
      rw [hpred]
    · have htrans : ∀ a b c : Int × Row, le2 a b → le2 b c → le2 a c := by
        intro a b c h1 h2
        simp only [hle2, decide_eq_true_eq] at h1 h2 ⊢
        omega
      have htotal : ∀ a b : Int × Row, le2 a b || le2 b a := by
        intro a b
        simp only [hle2]
        by_cases h : a.1 ≤ b.1
        · simp [h]
        · simp only [h, decide_eq_true_eq]
          simp
          omega
      have hsorted := List.sorted_mergeSort htrans htotal
        (((parsed.mergeSort le2).filter fun p => decide (us ≤ p.1)).filter fun p =>
          decide (p.1 ≤ ue))
      refine List.Pairwise.map _ ?_ hsorted
      intro a b hab
      simp only [hle2, decide_eq_true_eq] at hab
      exact hab

unseal List.merge List.mergeSort in
/-- Witness for C5: one point at the epoch, aware bounds around it. -/
theorem c5_witness :
    ∃ res, build_slice docPoint (some "1970-01-01T00:00:00+00:00")
        (some "1970-01-02T00:00:00+00:00") none none = .ok res ∧
      (res.points.map ORow.ts).Perm
        ((([[("timestamp", RVal.rstr "1970-01-01T00:00:00+00:00"), ("x", RVal.rnum 1)]].filterMap
            fun r => (cellToUs (dictGet r "timestamp")).map fun u => (u, r)).filter
              fun p => (0 : Int) ≤ p.1 ∧ p.1 ≤ 86400000000).map Prod.fst) ∧
      res.points.Pairwise (fun a b => a.ts ≤ b.ts) ∧
      res.points_count = res.points.length :=
  c5_slice_time_filter docPoint
    [[("timestamp", RVal.rstr "1970-01-01T00:00:00+00:00"), ("x", RVal.rnum 1)]]
    "1970-01-01T00:00:00+00:00" "1970-01-02T00:00:00+00:00" 0 86400000000
    (by decide) (by decide) (by decide)

/-- C3: single-flight under cooperative concurrency.  For any number of
tasks N >= 1 all starting `cached_json` on one unpopulated key, and any
interleaving of their suspension points that runs every task to
completion, the loader executed exactly once and every task returned the
loader's value. -/
theorem c3_single_flight {n : Nat} (v : PyVal) (s : TState n) (hn : 0 < n)
    (hreach : TReach v (tInit n) s)
    (hdone : ∀ i : Fin n, ∃ r, s.tasks i = .tDone r) :
    s.cnt = 1 ∧ ∀ i : Fin n, s.tasks i = .tDone v := by
  have hinv := tInv_reach hreach
  obtain ⟨r0, hr0⟩ := hdone ⟨0, hn⟩
  have hcache : s.cache = some v := hinv.doneCache ⟨0, hn⟩ r0 hr0
  have hcnt : s.cnt = 1 := by
    rcases hinv.phase with ⟨h1, h2, h3⟩ | ⟨h1, h2, h3⟩ | ⟨h1, h2, h3⟩
    · rw [h2] at hcache
      cases hcache
    · rw [h2] at hcache
      cases hcache
    · exact h1
  refine ⟨hcnt, fun i => ?_⟩
  obtain ⟨r, hr⟩ := hdone i
  rw [hr, hinv.doneOk i r hr]

/-- Witness for C3: a concrete 2-task schedule — task 0 misses, locks,
loads and stores; then task 1 hits the populated cache. -/
theorem c3_witness : c3S6.cnt = 1 ∧ ∀ i : Fin 2, c3S6.tasks i = .tDone c3Val := by
  have h1 : TStep c3Val (tInit 2) c3S1 := TStep.get1Miss (tInit 2) 0 rfl rfl
  have h2 : TStep c3Val c3S1 c3S2 := TStep.acquire c3S1 0 rfl rfl
  have h3 : TStep c3Val c3S2 c3S3 := TStep.get2Miss c3S2 0 rfl rfl
  have h4 : TStep c3Val c3S3 c3S4 := TStep.runLoader c3S3 0 rfl
  have h5 : TStep c3Val c3S4 c3S5 := TStep.setRelease c3S4 0 rfl
  have h6 : TStep c3Val c3S5 c3S6 := TStep.get1Hit c3S5 1 c3Val rfl rfl
  have hreach : TReach c3Val (tInit 2) c3S6 :=
    Relation.ReflTransGen.tail (Relation.ReflTransGen.tail (Relation.ReflTransGen.tail
      (Relation.ReflTransGen.tail (Relation.ReflTransGen.tail
        (Relation.ReflTransGen.tail Relation.ReflTransGen.refl h1) h2) h3) h4) h5) h6
  refine c3_single_flight c3Val c3S6 (by norm_num) hreach ?_
  intro i
  fin_cases i
  · exact ⟨c3Val, rfl⟩
  · exact ⟨c3Val, rfl⟩

theorem mem_dedupSort (ids : List String) (sid : String) :
    sid ∈ dedupSort ids ↔ sid ∈ ids := by
  unfold dedupSort
  rw [List.mem_mergeSort, List.mem_dedup]

theorem mem_compareFrames (ids : List String) (slice : String → MFrame) (f : MFrame) :
    f ∈ compareFrames ids slice ↔
      ∃ sid ∈ ids, (slice sid).rows ≠ [] ∧ f = prefixFrame sid (slice sid) := by
  unfold compareFrames
  rw [List.mem_filterMap]
  constructor
  · rintro ⟨sid, hsid, hg⟩
    by_cases hempty : (slice sid).rows.isEmpty
    · simp [hempty] at hg
    · simp only [hempty, if_false, Bool.false_eq_true] at hg
      refine ⟨sid, (mem_dedupSort ids sid).mp hsid, ?_, ?_⟩
      · simpa [List.isEmpty_iff] using hempty
      · injection hg with h2
        rw [h2]
  · rintro ⟨sid, hsid, hne, rfl⟩
    refine ⟨sid, (mem_dedupSort ids sid).mpr hsid, ?_⟩
    have hempty : (slice sid).rows.isEmpty = false := by
      simpa [List.isEmpty_iff] using hne
    simp [hempty]

/-- C7: the merge is a full outer join on timestamp over the deduplicated,
sorted station ids: if every station's slice is empty the result is empty
with `points_count 0` and the sorted ids; rows are sorted ascending by
timestamp; the output timeline is exactly the union of the stations' input
timestamps; every output field name carries a `sid:` prefix; and
`points_count` equals the row count. -/
theorem c7_merge_outer_join (ids : List String) (slice : String → MFrame) :
    ((∀ sid ∈ ids, (slice sid).rows = []) →
      compareLoader ids slice = ⟨dedupSort ids, [], [], 0⟩) ∧
    (compareLoader ids slice).points.Pairwise (fun p q => p.1 ≤ q.1) ∧
    (∀ t : Int, (∃ p ∈ (compareLoader ids slice).points, p.1 = t) ↔
      ∃ sid ∈ ids, ∃ r ∈ (slice sid).rows, r.1 = t) ∧
    (∀ c ∈ (compareLoader ids slice).cols, ∃ sid ∈ ids, ∃ base, c = sid ++ ":" ++ base) ∧
    (compareLoader ids slice).points_count = (compareLoader ids slice).points.length := by
  refine ⟨?_, ?_, ?_, ?_, ?_⟩
  · intro hall
    have hnil : compareFrames ids slice = [] := by
      unfold compareFrames
      rw [List.filterMap_eq_nil_iff]
      intro sid hsid
      have := hall sid ((mem_dedupSort ids sid).mp hsid)
      simp [this]
    simp [compareLoader, hnil]
  · cases hframes : compareFrames ids slice with
    | nil => simp [compareLoader, hframes]
    | cons f0 rest =>
      simp only [compareLoader, hframes]
      refine List.Pairwise.imp ?_ (List.sorted_mergeSort ?_ ?_ (rest.foldl mergeTwo f0).rows)
      · intro a b hab
        simpa using hab
      · intro a b c h1 h2
        simp only [decide_eq_true_eq] at h1 h2 ⊢
        omega
      · intro a b
        by_cases h : a.1 ≤ b.1
        · simp [h]
        · simp only [h, decide_eq_true_eq]
          simp
          omega
  · intro t
    cases hframes : compareFrames ids slice with
    | nil =>
      simp only [compareLoader, hframes]
      constructor
      · rintro ⟨p, hp, _⟩
        cases hp
      · rintro ⟨sid, hsid, r, hr, _⟩
        have hg := List.filterMap_eq_nil_iff.mp (by
          unfold compareFrames at hframes
          exact hframes) sid ((mem_dedupSort ids sid).mpr hsid)
        by_cases hempty : (slice sid).rows.isEmpty
        · have : (slice sid).rows = [] := by simpa [List.isEmpty_iff] using hempty
          rw [this] at hr
          cases hr
        · simp [hempty] at hg
    | cons f0 rest =>
      simp only [compareLoader, hframes]
      constructor
      · rintro ⟨p, hp, hpt⟩
        rw [List.mem_mergeSort] at hp
        have hts := (foldl_mergeTwo_ts rest f0 t).mp ⟨p, hp, hpt⟩
        have hts2 : ∃ f ∈ f0 :: rest, ∃ p2 ∈ f.rows, p2.1 = t := by
          rcases hts with h | h
          · exact ⟨f0, List.mem_cons_self f0 rest, h⟩
          · obtain ⟨f, hf, hp2⟩ := h
            exact ⟨f, List.mem_cons_of_mem f0 hf, hp2⟩
        obtain ⟨f, hf, p2, hp2, hp2t⟩ := hts2
        rw [← hframes] at hf
        obtain ⟨sid, hsid, hne, rfl⟩ := (mem_compareFrames ids slice f).mp hf
        exact ⟨sid, hsid, p2, hp2, hp2t⟩
      · rintro ⟨sid, hsid, r, hr, hrt⟩
        have hne : (slice sid).rows ≠ [] := by
          intro he
          rw [he] at hr
          cases hr
        have hf : prefixFrame sid (slice sid) ∈ compareFrames ids slice :=
          (mem_compareFrames ids slice _).mpr ⟨sid, hsid, hne, rfl⟩
        rw [hframes] at hf
        have hts : (∃ p ∈ f0.rows, p.1 = t) ∨ ∃ f ∈ rest, ∃ p ∈ f.rows, p.1 = t := by
          rcases List.mem_cons.mp hf with rfl | hf2
          · exact Or.inl ⟨r, hr, hrt⟩
          · exact Or.inr ⟨_, hf2, r, hr, hrt⟩
        obtain ⟨p, hp, hpt⟩ := (foldl_mergeTwo_ts rest f0 t).mpr hts
        exact ⟨p, List.mem_mergeSort.mpr hp, hpt⟩
  · intro c hc
    cases hframes : compareFrames ids slice with
    | nil =>
      simp only [compareLoader, hframes] at hc
      cases hc
    | cons f0 rest =>
      simp only [compareLoader, hframes] at hc
      have h2 := (foldl_mergeTwo_cols rest f0 c).mp hc
      have h3 : ∃ f ∈ f0 :: rest, c ∈ f.cols := by
        rcases h2 with h | h
        · exact ⟨f0, List.mem_cons_self f0 rest, h⟩
        · obtain ⟨f, hf, hcc⟩ := h
          exact ⟨f, List.mem_cons_of_mem f0 hf, hcc⟩
      obtain ⟨f, hf, hcc⟩ := h3
      rw [← hframes] at hf
      obtain ⟨sid, hsid, hne, rfl⟩ := (mem_compareFrames ids slice f).mp hf
      obtain ⟨base, hbase, rfl⟩ := List.mem_map.mp hcc
      exact ⟨sid, hsid, base, rfl⟩
  · cases hframes : compareFrames ids slice with
    | nil => simp [compareLoader, hframes]
    | cons f0 rest => simp [compareLoader, hframes]

unseal List.merge List.mergeSort in
/-- Witness for C7: requesting station `a` twice with an empty slice
returns the deduplicated id list with no points. -/
theorem c7_witness :
    compareLoader ["a", "a"] (fun _ => ⟨["x"], []⟩) =
      ⟨["a"], [], [], 0⟩ := by
  have h := c7_merge_outer_join ["a", "a"] (fun _ => ⟨["x"], []⟩)
  exact (h.1 (fun _ _ => rfl)).trans (by decide)

theorem resample_gap_general (w : Int) (hw : 0 < w) (t0 : Int) (a b c : ℚ) :
    resampleMeanInterp w ["x"]
      [(t0, [("x", .rnum a)]), (t0 + w, [("x", .rnum b)]), (t0 + 4 * w, [("x", .rnum c)])] =
      [(bucketOf (dayAnchor t0) w t0, [some a]),
       (bucketOf (dayAnchor t0) w t0 + w * 1, [some b]),
       (bucketOf (dayAnchor t0) w t0 + w * 2, [some (b + (c - b) / 3)]),
       (bucketOf (dayAnchor t0) w t0 + w * 3, [some (b + (c - b) * 2 / 3)]),
       (bucketOf (dayAnchor t0) w t0 + w * 4, [some c])] := by
  have hb1 : bucketOf (dayAnchor t0) w (t0 + w) = bucketOf (dayAnchor t0) w t0 + w := by
    simpa using bucketOf_add_mul (dayAnchor t0) w t0 1 hw
  have hb4 : bucketOf (dayAnchor t0) w (t0 + 4 * w) = bucketOf (dayAnchor t0) w t0 + 4 * w := by
    simpa [Int.mul_comm] using bucketOf_add_mul (dayAnchor t0) w t0 4 hw
  have hfold : List.foldl max t0 [t0, t0 + w, t0 + 4 * w] = t0 + 4 * w := by
    have h1 : max t0 t0 = t0 := max_self t0
    have h2 : max t0 (t0 + w) = t0 + w := max_eq_right (by omega)
    have h3 : max (t0 + w) (t0 + 4 * w) = t0 + 4 * w := max_eq_right (by omega)
    simp [List.foldl, h1, h2, h3]
  have hcnt : ((bucketOf (dayAnchor t0) w t0 + w * 4 - bucketOf (dayAnchor t0) w t0).fdiv
      w).toNat + 1 = 5 := by
    rw [show bucketOf (dayAnchor t0) w t0 + w * 4 - bucketOf (dayAnchor t0) w t0 = 4 * w by ring,
      Int.mul_fdiv_cancel 4 (by omega)]
    rfl
  have h44 : bucketOf (dayAnchor t0) w t0 + 4 * w = bucketOf (dayAnchor t0) w t0 + w * 4 := by
    ring
  have f01 : ¬(bucketOf (dayAnchor t0) w t0 = bucketOf (dayAnchor t0) w t0 + w) := by omega
  have f02 : ¬(bucketOf (dayAnchor t0) w t0 = bucketOf (dayAnchor t0) w t0 + w * 2) := by omega
  have f03 : ¬(bucketOf (dayAnchor t0) w t0 = bucketOf (dayAnchor t0) w t0 + w * 3) := by omega
  have f04 : ¬(bucketOf (dayAnchor t0) w t0 = bucketOf (dayAnchor t0) w t0 + w * 4) := by omega
  have f10 : ¬(bucketOf (dayAnchor t0) w t0 + w = bucketOf (dayAnchor t0) w t0) := by omega
  have f12 : ¬(bucketOf (dayAnchor t0) w t0 + w = bucketOf (dayAnchor t0) w t0 + w * 2) := by
    omega
  have f13 : ¬(bucketOf (dayAnchor t0) w t0 + w = bucketOf (dayAnchor t0) w t0 + w * 3) := by
    omega
  have f14 : ¬(bucketOf (dayAnchor t0) w t0 + w = bucketOf (dayAnchor t0) w t0 + w * 4) := by
    omega
  have f40 : ¬(bucketOf (dayAnchor t0) w t0 + w * 4 = bucketOf (dayAnchor t0) w t0) := by omega
  have f41 : ¬(bucketOf (dayAnchor t0) w t0 + w * 4 = bucketOf (dayAnchor t0) w t0 + w) := by
    omega
  have f42 : ¬(bucketOf (dayAnchor t0) w t0 + w * 4 = bucketOf (dayAnchor t0) w t0 + w * 2) := by
    omega
  have f43 : ¬(bucketOf (dayAnchor t0) w t0 + w * 4 = bucketOf (dayAnchor t0) w t0 + w * 3) := by
    omega
  simp only [resampleMeanInterp, List.head?, hfold, hb1, hb4, hcnt, h44,
    show List.range 5 = [0, 1, 2, 3, 4] from rfl, List.map_cons, List.map_nil,
    Nat.cast_ofNat, Nat.cast_zero, Nat.cast_one, mul_zero, mul_one, add_zero,
    List.filter_cons, List.filter_nil, decide_eq_true_eq]
  simp only [hcnt, show List.range 5 = [0, 1, 2, 3, 4] from rfl, List.map_cons, List.map_nil,
    Nat.cast_ofNat, Nat.cast_zero, Nat.cast_one, mul_zero, mul_one, add_zero,
    if_pos rfl, f01, f02, f03, f04, f10, f12, f13, f14, f40, f41, f42, f43, if_neg,
    if_false, ite_false, ite_true]
  simp only [List.filterMap_cons, List.filterMap_nil, dictGet, if_pos rfl, colMean]
  norm_num [interpCol, findPrevVal, findNextVal, List.range_succ]

unseal Rat.add Rat.mul Rat.inv Rat.sub in
/-- Counterexample to C6: gap-filling is NOT only linear interpolation
between two populated neighbors.  With field `x` present at the first of
two hourly buckets only, the trailing empty bucket has no populated
successor, yet `interpolate(limit=2)` (via `np.interp`'s right clamp)
forward-fills it with the last value: the second bucket reports
`x = 1` instead of staying absent. -/
theorem c6_trailing_gap_forward_filled :
    resampleMeanInterp usPerHour ["x", "y"] rowsTrailingGap =
      [(0, [some 1, some 1]), (usPerHour, [some 1, some 2])] := by
  decide

/-- C6 (amended): the resample step buckets points into fixed-width
windows (here `1h`, whose rule string parses to a 3600-second width),
averages each field over each populated bucket, and fills interior gaps of
at most two consecutive empty buckets by linear interpolation between the
nearest populated neighbors: a series with points at `t0, t0+1h, t0+4h`
yields populated buckets at `t0` and `t0+1h`, interpolated buckets at
`t0+2h` and `t0+3h`, and a populated bucket at `t0+4h`.  (Trailing empty
buckets are instead clamp-filled with the last value, and leading ones
stay absent — see the counterexample.) -/
theorem c6_resample_gap_rule (t0 : Int) (a b c : ℚ) :
    parseFreq "1h" = some usPerHour ∧
    resampleMeanInterp usPerHour ["x"]
      [(t0, [("x", .rnum a)]), (t0 + usPerHour, [("x", .rnum b)]),
        (t0 + 4 * usPerHour, [("x", .rnum c)])] =
      [(bucketOf (dayAnchor t0) usPerHour t0, [some a]),
       (bucketOf (dayAnchor t0) usPerHour t0 + usPerHour * 1, [some b]),
       (bucketOf (dayAnchor t0) usPerHour t0 + usPerHour * 2, [some (b + (c - b) / 3)]),
       (bucketOf (dayAnchor t0) usPerHour t0 + usPerHour * 3, [some (b + (c - b) * 2 / 3)]),
       (bucketOf (dayAnchor t0) usPerHour t0 + usPerHour * 4, [some c])] :=
  ⟨rfl, resample_gap_general usPerHour (by norm_num [usPerHour]) t0 a b c⟩
